import Mathlib

/-!
# Verification of the settlement-eta-api gap filler and lookup engine

Shallow embedding of the repository's core logic:

* `src/run/003_generate_missing_bins_improved.py` — the Gap Filler
  (`find_missing_bins`, `collect_bin_statistics`, `get_bin_index`,
  `interpolate_bin_data`, `populate_missing_bins`);
* `src/tests/lookup_settlement_times.py` — the Lookup Service
  (`find_amount_bucket`, `get_ticker_hash_from_asset_name`,
  `lookup_settlement_times`).

Python dicts are modelled as association lists (insertion-ordered,
unique keys expressed by a well-formedness predicate); JSON scalar
statistics are modelled as `JVal` (a rational number, or a non-numeric
string used to express malformed bins); Python floats are modelled as
exact rationals with decimal rounding made explicit; Python exceptions
are modelled by `Except String`.
-/

set_option autoImplicit false

deriving instance DecidableEq for Except

namespace SettlementEta

/-- A stored JSON scalar statistic: numeric, or a non-numeric (string) value.
Python performs no validation on these, so a bin statistic may be any value;
arithmetic on a non-numeric value raises `TypeError`. -/
inductive JVal where
  | num (q : ℚ)
  | str (s : String)
deriving DecidableEq, Repr

/-- `true` iff the value is numeric. -/
def JVal.isNum : JVal → Bool
  | .num _ => true
  | .str _ => false

/-- One bin of settlement statistics, as stored in the dataset JSON.
The three percentile fields are the keys `settlement_duration_minutes_p25/50/75`
read by the gap filler; `sample_size`, `generated` and `method` are carried
along (optional: real bins from the CSV conversion may lack them, generated
bins always set them). -/
structure Bin where
  p25 : JVal
  p50 : JVal
  p75 : JVal
  sample_size : Option JVal := none
  generated : Option Bool := none
  method : Option String := none
deriving DecidableEq, Repr

/-- The bins of one route, keyed by bucket name (insertion-ordered dict). -/
abbrev Bins := List (String × Bin)

/-- tickerhash → bins. -/
abbrev TickerMap := List (String × Bins)

/-- destination chain id → ticker map. -/
abbrev DestMap := List (String × TickerMap)

/-- The 4-level dataset: origin → destination → tickerhash → bucket → bin. -/
abbrev Dataset := List (String × DestMap)

/-! ## Association-list primitives (Python dict semantics) -/

/-- Dict read: value of the first entry with the given key. -/
def lookupA {α : Type} (l : List (String × α)) (k : String) : Option α :=
  (l.find? (fun p => p.1 = k)).map (·.2)

/-- Dict write `d[k] = v`: replace the value at `k` in place if present,
otherwise append a new entry at the end (Python dict insertion order). -/
def updateA {α : Type} (l : List (String × α)) (k : String) (v : α) :
    List (String × α) :=
  match l with
  | [] => [(k, v)]
  | (k', v') :: t => if k' = k then (k, v) :: t else (k', v') :: updateA t k v

/-- Apply `f` to the value stored at `k` (no-op when `k` is absent). -/
def modifyA {α : Type} (l : List (String × α)) (k : String) (f : α → α) :
    List (String × α) :=
  match l with
  | [] => []
  | (k', v') :: t => if k' = k then (k', f v') :: t else (k', v') :: modifyA t k f

/-- The keys of a dict, in insertion order. -/
def keysA {α : Type} (l : List (String × α)) : List String := l.map (·.1)

/-- A level of the nested structure has unique keys (always true of a
Python dict / parsed JSON object). -/
def WFa {α : Type} (l : List (String × α)) : Prop := (keysA l).Nodup

/-- The whole dataset has unique keys at the origin, destination and
tickerhash levels. -/
def WFdataset (d : Dataset) : Prop :=
  WFa d ∧ ∀ p1 ∈ d, WFa p1.2 ∧ ∀ p2 ∈ p1.2, WFa p2.2

instance {α : Type} (l : List (String × α)) : Decidable (WFa l) := by
  unfold WFa; infer_instance

instance (d : Dataset) : Decidable (WFdataset d) := by
  unfold WFdataset; infer_instance

/-- Every stored statistic of every bin of the dataset is numeric
(the spec's "well-formed input"). -/
def AllNumeric (d : Dataset) : Prop :=
  ∀ p1 ∈ d, ∀ p2 ∈ p1.2, ∀ p3 ∈ p2.2, ∀ pb ∈ p3.2,
    ((pb.2 : Bin).p25.isNum && pb.2.p50.isNum && pb.2.p75.isNum) = true

instance (d : Dataset) : Decidable (AllNumeric d) := by
  unfold AllNumeric; infer_instance

/-- Navigate `data[origin][destination][tickerhash]`. -/
def getRoute (d : Dataset) (o ds t : String) : Option Bins :=
  (lookupA d o).bind fun dm => (lookupA dm ds).bind fun tm => lookupA tm t

/-- `populated_data[o][ds][t][bn] = b` — nested in-place dict write
(modifies nothing when the route path is absent). -/
def setBin (d : Dataset) (o ds t bn : String) (b : Bin) : Dataset :=
  modifyA d o fun dm => modifyA dm ds fun tm => modifyA tm t fun bins =>
    updateA bins bn b

/-- Replace a whole route's bin dict (nested in-place dict write). -/
def setRoute (d : Dataset) (o ds t : String) (bins : Bins) : Dataset :=
  modifyA d o fun dm => modifyA dm ds fun tm => modifyA tm t fun _ => bins

/-! ## Bucket Catalog

From `EXPECTED_BINS` in `src/run/003_generate_missing_bins_improved.py`
(identical list in `find_amount_bucket`'s thresholds in
`src/tests/lookup_settlement_times.py`). -/

/-- The 8 canonical buckets, in rank order (`EXPECTED_BINS`). -/
def EXPECTED_BINS : List String :=
  ["0-50000", "50000-100000", "100000-300000", "300000-400000",
   "400000-500000", "500000-700000", "700000-1000000", "1000000+"]

/-- `find_amount_bucket` from `src/tests/lookup_settlement_times.py`:
ascending `<=` threshold chain; note the bounds are inclusive on the upper
end and there is no negativity check. -/
def find_amount_bucket (usd_amount : ℚ) : String :=
  if usd_amount ≤ 50000 then "0-50000"
  else if usd_amount ≤ 100000 then "50000-100000"
  else if usd_amount ≤ 300000 then "100000-300000"
  else if usd_amount ≤ 400000 then "300000-400000"
  else if usd_amount ≤ 500000 then "400000-500000"
  else if usd_amount ≤ 700000 then "500000-700000"
  else if usd_amount ≤ 1000000 then "700000-1000000"
  else "1000000+"

/-- `get_bin_index`: index in `EXPECTED_BINS`, `-1` when not canonical. -/
def get_bin_index (bin_name : String) : Int :=
  match EXPECTED_BINS.indexOf? bin_name with
  | some i => (i : Int)
  | none => -1

/-! ## Gap Filler (`src/run/003_generate_missing_bins_improved.py`) -/

/-- Python `TypeError` raised by arithmetic or `statistics.mean` on a
non-numeric operand; carries no route or bucket information. -/
def pyTypeError : String := "TypeError: unsupported operand type(s)"

/-- Python `KeyError` on a missing dict key. -/
def pyKeyError : String := "KeyError"

/-- Round-half-to-even to an integer (Python's `round` on an exact value). -/
def pyRoundHalfEven (x : ℚ) : ℤ :=
  let f := ⌊x⌋
  if x - f < 1/2 then f
  else if (1 : ℚ)/2 < x - f then f + 1
  else if Even f then f else f + 1

/-- Python `round(x, 2)`. -/
def round2 (x : ℚ) : ℚ := (pyRoundHalfEven (x * 100) : ℚ) / 100

/-- Numeric view of a stored value (`none` for a non-numeric value). -/
def toNum : JVal → Option ℚ
  | .num q => some q
  | .str _ => none

/-- Numeric view of a list of stored values (`none` when any is
non-numeric). -/
def toNums : List JVal → Option (List ℚ)
  | [] => some []
  | v :: t =>
    match toNum v with
    | none => none
    | some q =>
      match toNums t with
      | none => none
      | some qs => some (q :: qs)

/-- Python `statistics.mean`: `StatisticsError` on an empty list,
`TypeError` if some element is non-numeric, else the arithmetic mean. -/
def pymean (l : List JVal) : Except String ℚ :=
  match toNums l with
  | some qs =>
      if qs.length = 0 then
        .error "StatisticsError: mean requires at least one data point"
      else .ok (qs.sum / (qs.length : ℚ))
  | none => .error pyTypeError

/-- Per-bucket collections of observed percentile values
(the value of `bin_stats[bin_name]` in the Python code). -/
structure BinStatsLists where
  p25 : List JVal
  p50 : List JVal
  p75 : List JVal
deriving DecidableEq, Repr

/-- All `(bucketName, bin)` pairs of the dataset, in iteration order. -/
def all_dataset_bins (d : Dataset) : List (String × Bin) :=
  d.flatMap fun p1 => p1.2.flatMap fun p2 => p2.2.flatMap fun p3 => p3.2

/-- `collect_bin_statistics`, presented as the lookup function of the
resulting `bin_stats` table: for each canonical bucket name, the `p25`,
`p50`, `p75` values of every stored bin with that name across all routes
(a name with no occurrences, or a non-canonical name, has empty lists —
exactly when `bin_name in bin_stats and bin_stats[bin_name][metric]` is
falsy in the Python code). -/
def collect_bin_statistics (d : Dataset) (bin_name : String) : BinStatsLists :=
  if bin_name ∈ EXPECTED_BINS then
    let vals := (all_dataset_bins d).filterMap fun p =>
      if p.1 = bin_name then some p.2 else none
    ⟨vals.map (·.p25), vals.map (·.p50), vals.map (·.p75)⟩
  else ⟨[], [], []⟩

/-- The fixed per-target-bucket multiplier chain opening
`interpolate_bin_data` (local variable `base_multiplier`). -/
def base_multiplier (target_bin : String) : ℚ :=
  if target_bin = "50000-100000" then 1.2
  else if target_bin = "100000-300000" then 1.5
  else if target_bin = "300000-400000" then 1.8
  else if target_bin = "400000-500000" then 2.0
  else if target_bin = "500000-700000" then 2.5
  else if target_bin = "700000-1000000" then 3.0
  else if target_bin = "1000000+" then 4.0
  else 1.0

/-- The `surrounding_data` collection loop of strategy
`weighted_interpolation`: for every existing bucket with non-empty global
`p25` data and a canonical index, a `(weight, p25, p50, p75)` record where
the averages are global means (which raise `TypeError` on non-numeric
collected values). -/
def surrounding_step (bin_stats : String → BinStatsLists) (target_index : Int)
    (acc : List (ℚ × ℚ × ℚ × ℚ)) (bin_name : String) :
    Except String (List (ℚ × ℚ × ℚ × ℚ)) :=
  if (bin_stats bin_name).p25 ≠ [] then
    let bin_index := get_bin_index bin_name
    if bin_index ≠ -1 then do
      let distance := (bin_index - target_index).natAbs
      let weight : ℚ := 1 / ((distance : ℚ) + 1)
      let avg_p25 ← pymean (bin_stats bin_name).p25
      let avg_p50 ← pymean (bin_stats bin_name).p50
      let avg_p75 ← pymean (bin_stats bin_name).p75
      pure (acc ++ [(weight, avg_p25, avg_p50, avg_p75)])
    else pure acc
  else pure acc

def collect_surrounding (bin_stats : String → BinStatsLists)
    (target_index : Int) (existing_bins : List String) :
    Except String (List (ℚ × ℚ × ℚ × ℚ)) :=
  existing_bins.foldlM (surrounding_step bin_stats target_index) []

/-- The bin dict built by both baseline-scaling strategies:
`estimated_p50 = baseline_p50 * multiplier`, `p25/p75` derived at
0.7/1.3, all rounded to 2 decimals, `sample_size = 0`. -/
def baseline_scaled_bin (baseline_p50 : ℚ) (target_bin : String)
    (methodName : String) : Bin :=
  let estimated_p50 := baseline_p50 * base_multiplier target_bin
  { p25 := .num (round2 (estimated_p50 * 0.7)),
    p50 := .num (round2 estimated_p50),
    p75 := .num (round2 (estimated_p50 * 1.3)),
    sample_size := some (.num 0), generated := some true,
    method := some methodName }

/-- The bin dict built by `weighted_interpolation` from the collected
`surrounding_data`. -/
def weighted_bin (surrounding : List (ℚ × ℚ × ℚ × ℚ)) : Bin :=
  let total_weight := (surrounding.map (·.1)).sum
  { p25 := .num (round2 ((surrounding.map fun i => i.1 * i.2.1).sum / total_weight)),
    p50 := .num (round2 ((surrounding.map fun i => i.1 * i.2.2.1).sum / total_weight)),
    p75 := .num (round2 ((surrounding.map fun i => i.1 * i.2.2.2).sum / total_weight)),
    sample_size := some (.num 0), generated := some true,
    method := some "weighted_interpolation" }

/-- The bin dict built by `cross_combination_average` (means used
unrounded). -/
def cross_bin (m25 m50 m75 : ℚ) : Bin :=
  { p25 := .num m25, p50 := .num m50, p75 := .num m75,
    sample_size := some (.num 0), generated := some true,
    method := some "cross_combination_average" }

/-- The `default_fallback` bin of strategy 5. -/
def default_fallback_bin : Bin :=
  { p25 := .num 10.0, p50 := .num 15.0, p75 := .num 25.0,
    sample_size := some (.num 0), generated := some true,
    method := some "default_fallback" }

/-- `interpolate_bin_data`: the cascading strategy chain. `bin_stats` is the
global statistics table (as a lookup function), `existing_bins` the route's
bucket names as captured by the caller, `route_data` the route's current
bin dict. -/
def interpolate_bin_data (bin_stats : String → BinStatsLists)
    (target_bin : String) (existing_bins : List String) (route_data : Bins) :
    Except String Bin :=
  -- Strategy 1: baseline scaling from the route's own "0-50000" bin
  match lookupA route_data "0-50000" with
  | some baseline =>
      match baseline.p50 with
      | .num baseline_p50 =>
          .ok (baseline_scaled_bin baseline_p50 target_bin "baseline_scaling")
      | .str _ => .error pyTypeError
  | none =>
    -- Fallback: baseline scaling from the global "0-50000" mean
    if (bin_stats "0-50000").p50 ≠ [] then
      (pymean (bin_stats "0-50000").p50).map fun baseline_p50 =>
        baseline_scaled_bin baseline_p50 target_bin "baseline_scaling_global"
    else do
      -- Strategy 2: weighted interpolation from surrounding bins
      let surrounding ←
        collect_surrounding bin_stats (get_bin_index target_bin) existing_bins
      if surrounding ≠ [] then
        pure (weighted_bin surrounding)
      else if (bin_stats target_bin).p25 ≠ [] then do
        -- Strategy 3: cross-combination average (no rounding)
        let m25 ← pymean (bin_stats target_bin).p25
        let m50 ← pymean (bin_stats target_bin).p50
        let m75 ← pymean (bin_stats target_bin).p75
        pure (cross_bin m25 m50 m75)
      else
        -- Strategy 4: defaults
        pure default_fallback_bin

/-- The canonical buckets a bin dict is missing, in rank order
(the list comprehension `[b for b in EXPECTED_BINS if b not in existing]`). -/
def missing_of (bins : Bins) : List String :=
  EXPECTED_BINS.filter fun b => (lookupA bins b).isNone

/-- `find_missing_bins`: the `(origin, destination, tickerhash, missing)`
combinations, in dataset iteration order, for routes missing at least one
canonical bucket. -/
def find_missing_bins (d : Dataset) :
    List (String × String × String × List String) :=
  d.flatMap fun p1 => p1.2.flatMap fun p2 => p2.2.filterMap fun p3 =>
    if (missing_of p3.2).isEmpty then none
    else some (p1.1, p2.1, p3.1, missing_of p3.2)

/-- One iteration of the inner loop of `populate_missing_bins`: re-read the
route's **current** data from the populated dataset, synthesize the bin,
write it back. -/
def fill_one_bin (stats : String → BinStatsLists) (o ds t : String)
    (existing_bins : List String) (pd : Dataset) (bin_name : String) :
    Except String Dataset :=
  match getRoute pd o ds t with
  | none => .error pyKeyError
  | some route_data => do
      let generated ← interpolate_bin_data stats bin_name existing_bins route_data
      pure (setBin pd o ds t bin_name generated)

/-- One iteration of the outer loop of `populate_missing_bins`: capture
`existing_bins` once from the current populated dataset, then fill each
missing bucket in order. -/
def fill_combination (stats : String → BinStatsLists) (pd : Dataset)
    (c : String × String × String × List String) : Except String Dataset :=
  match getRoute pd c.1 c.2.1 c.2.2.1 with
  | none => .error pyKeyError
  | some bins =>
      c.2.2.2.foldlM (fill_one_bin stats c.1 c.2.1 c.2.2.1 (keysA bins)) pd

/-- `populate_missing_bins`: deep-copy the input (identity on immutable
values), build the global statistics from the **original** data, then fill
every missing combination in order. -/
def populate_missing_bins (data : Dataset)
    (missing_combinations : List (String × String × String × List String)) :
    Except String Dataset :=
  missing_combinations.foldlM (fill_combination (collect_bin_statistics data)) data

/-- The Gap Filler as run by `main`: `find_missing_bins` then
`populate_missing_bins` on the same dataset. -/
def gap_fill (data : Dataset) : Except String Dataset :=
  populate_missing_bins data (find_missing_bins data)

/-- Proof-side abstraction: the effect of the per-combination loop on one
route's bin dict alone (state = the route's bins, everything else fixed). -/
def route_fold (stats : String → BinStatsLists) (existing_bins : List String)
    (missing : List String) (bins : Bins) : Except String Bins :=
  missing.foldlM (fun bs bn =>
    (interpolate_bin_data stats bn existing_bins bs).map (updateA bs bn)) bins

/-- Proof-side abstraction: the full gap-fill effect on one route. -/
def route_fill (stats : String → BinStatsLists) (bins : Bins) :
    Except String Bins :=
  route_fold stats (keysA bins) (missing_of bins) bins

/-! ## Lookup Service (`src/tests/lookup_settlement_times.py`) -/

/-- One entry of an asset catalog (only `tickerHash` is read). -/
structure AssetInfo where
  tickerHash : String
deriving DecidableEq, Repr

/-- One chain's record in `chain_data.json`; `assets` may be absent. -/
structure ChainInfo where
  assets : Option (List (String × AssetInfo)) := none
deriving DecidableEq, Repr

/-- The chain/asset catalog (`chain_data.json`): an optional hub asset
table and a chain table (`chain_data.get("chains", {})`). -/
structure ChainData where
  hub_assets : Option (List (String × AssetInfo)) := none
  chains : List (String × ChainInfo) := []
deriving DecidableEq, Repr

/-- First case-insensitive symbol match in one asset dict. -/
def search_assets (assets : List (String × AssetInfo)) (asset_name : String) :
    Option String :=
  (assets.find? fun p => p.1.toUpper = asset_name.toUpper).map (·.2.tickerHash)

/-- The hub-catalog pass (`if "hub" in chain_data and "assets" in
chain_data["hub"]`). -/
def hub_search (cd : ChainData) (asset_name : String) : Option String :=
  match cd.hub_assets with
  | some hub => search_assets hub asset_name
  | none => none

/-- The hinted-chain pass (`if origin_chain and origin_chain in
chain_data.get("chains", {})`; assets read with `.get("assets", {})`). -/
def hinted_search (cd : ChainData) (asset_name : String)
    (origin_chain : Option String) : Option String :=
  match origin_chain with
  | some oc =>
      if oc = "" then none
      else match lookupA cd.chains oc with
           | some ci => search_assets (ci.assets.getD []) asset_name
           | none => none
  | none => none

/-- One chain's pass in the all-chains loop (`if "assets" in chain_info`). -/
def search_chain_assets (ci : ChainInfo) (asset_name : String) : Option String :=
  match ci.assets with
  | some a => search_assets a asset_name
  | none => none

/-- The all-chains pass (first chain, in table order, whose assets hold a
match). -/
def all_chains_search (cd : ChainData) (asset_name : String) : Option String :=
  cd.chains.findSome? fun p => search_chain_assets p.2 asset_name

/-- `get_ticker_hash_from_asset_name`: hub assets first, then the hinted
origin chain's assets (when a non-empty hint is given and the chain is in
the table), then every chain's assets in table order; `none` when nothing
matches (or when no chain data was loaded). -/
def get_ticker_hash_from_asset_name (chain_data : Option ChainData)
    (asset_name : String) (origin_chain : Option String) : Option String :=
  match chain_data with
  | none => none
  | some cd =>
    hub_search cd asset_name <|>
    hinted_search cd asset_name origin_chain <|>
    all_chains_search cd asset_name

/-- Modelled from the spec claim's wording for comparison with the code:
one concatenated catalog — hub entries, then the hinted chain's entries,
then every chain's entries — searched once for the first case-insensitive
symbol match. -/
def resolve_asset_by_concatenation (cd : ChainData) (asset_name : String)
    (origin_chain : Option String) : Option String :=
  ((cd.hub_assets.getD [] ++
      ((match origin_chain with
        | some oc =>
            if oc = "" then []
            else match lookupA cd.chains oc with
                 | some ci => ci.assets.getD []
                 | none => []
        | none => []) ++
        cd.chains.flatMap fun p => p.2.assets.getD [])).find? fun p =>
      p.1.toUpper = asset_name.toUpper).map (·.2.tickerHash)

/-- The record returned by `lookup_settlement_times` (the `result` dict). -/
structure LookupResult where
  origin_chain : String
  destination_chain : String
  asset : String
  amount_range : String
  p25 : JVal
  p50 : JVal
  p75 : JVal
  sample_size : Option JVal
  generated : Bool
  method : String
deriving DecidableEq, Repr

/-- Build the `result` dict from a located bin (`range_data.get(...)`,
`generated` defaulting to `False`, `method` defaulting to `"N/A"`). -/
def mk_lookup_result (o ds a r : String) (b : Bin) : LookupResult :=
  { origin_chain := o, destination_chain := ds, asset := a,
    amount_range := r, p25 := b.p25, p50 := b.p50, p75 := b.p75,
    sample_size := b.sample_size, generated := b.generated.getD false,
    method := b.method.getD "N/A" }

/-- `lookup_settlement_times` (post file-load): navigate origin →
destination → asset, then use the requested amount range, or, when none is
given, the first stored amount range in iteration order; `none` models each
of the function's error-and-return-None paths. -/
def lookup_settlement_times (data : Dataset)
    (origin_chain destination_chain asset_hash : String)
    (amount_range : Option String) : Option LookupResult :=
  match lookupA data origin_chain with
  | none => none
  | some dm =>
    match lookupA dm destination_chain with
    | none => none
    | some tm =>
      match lookupA tm asset_hash with
      | none => none
      | some asset_data =>
        match amount_range with
        | some r =>
            match lookupA asset_data r with
            | none => none
            | some b =>
                some (mk_lookup_result origin_chain destination_chain
                  asset_hash r b)
        | none =>
            match asset_data with
            | [] => none
            | (r, b) :: _ =>
                some (mk_lookup_result origin_chain destination_chain
                  asset_hash r b)

/-! ## Association-list lemmas -/

section AssocLemmas

variable {α : Type}

@[simp] theorem lookupA_nil (k : String) : lookupA ([] : List (String × α)) k = none := rfl

theorem lookupA_cons (k' : String) (v' : α) (t : List (String × α)) (k : String) :
    lookupA ((k', v') :: t) k = if k' = k then some v' else lookupA t k := by
  simp only [lookupA, List.find?]
  by_cases h : k' = k <;> simp [h]

theorem lookupA_updateA_self (l : List (String × α)) (k : String) (v : α) :
    lookupA (updateA l k v) k = some v := by
  induction l with
  | nil => simp [updateA, lookupA_cons]
  | cons p t ih =>
    obtain ⟨k', v'⟩ := p
    by_cases h : k' = k <;> simp [updateA, h, lookupA_cons, ih]

theorem lookupA_updateA_ne (l : List (String × α)) (k : String) (v : α)
    (k' : String) (h : k' ≠ k) : lookupA (updateA l k v) k' = lookupA l k' := by
  induction l with
  | nil =>
    simp only [updateA, lookupA_cons]
    rw [if_neg (Ne.symm h)]
  | cons p t ih =>
    obtain ⟨k₀, v₀⟩ := p
    by_cases h0 : k₀ = k
    · subst h0
      simp only [updateA, if_pos]
      rw [lookupA_cons, lookupA_cons, if_neg (Ne.symm h), if_neg (Ne.symm h)]
    · simp only [updateA, if_neg h0]
      rw [lookupA_cons, lookupA_cons]
      by_cases h1 : k₀ = k'
      · rw [if_pos h1, if_pos h1]
      · rw [if_neg h1, if_neg h1, ih]

theorem lookupA_modifyA_self (l : List (String × α)) (k : String) (f : α → α) :
    lookupA (modifyA l k f) k = (lookupA l k).map f := by
  induction l with
  | nil => simp [modifyA]
  | cons p t ih =>
    obtain ⟨k₀, v₀⟩ := p
    by_cases h0 : k₀ = k
    · simp only [modifyA, if_pos h0, lookupA_cons, if_pos h0]
      rfl
    · simp only [modifyA, if_neg h0, lookupA_cons, if_neg h0, ih]

theorem lookupA_modifyA_ne (l : List (String × α)) (k : String) (f : α → α)
    (k' : String) (h : k' ≠ k) : lookupA (modifyA l k f) k' = lookupA l k' := by
  induction l with
  | nil => simp [modifyA]
  | cons p t ih =>
    obtain ⟨k₀, v₀⟩ := p
    by_cases h0 : k₀ = k
    · subst h0
      simp only [modifyA, if_pos]
      rw [lookupA_cons, lookupA_cons, if_neg (Ne.symm h), if_neg (Ne.symm h)]
    · simp only [modifyA, if_neg h0]
      rw [lookupA_cons, lookupA_cons]
      by_cases h1 : k₀ = k'
      · rw [if_pos h1, if_pos h1]
      · rw [if_neg h1, if_neg h1, ih]

theorem modifyA_congr (l : List (String × α)) (k : String) (f g : α → α)
    (hv : ∀ v, lookupA l k = some v → f v = g v) :
    modifyA l k f = modifyA l k g := by
  induction l with
  | nil => simp [modifyA]
  | cons p t ih =>
    obtain ⟨k₀, v₀⟩ := p
    by_cases h0 : k₀ = k
    · have := hv v₀ (by rw [lookupA_cons, if_pos h0])
      simp [modifyA, h0, this]
    · simp only [modifyA, if_neg h0]
      exact congrArg (List.cons (k₀, v₀))
        (ih fun v hvv => hv v (by rw [lookupA_cons, if_neg h0]; exact hvv))

theorem modifyA_fix (l : List (String × α)) (k : String) (f : α → α)
    (hv : ∀ v, lookupA l k = some v → f v = v) : modifyA l k f = l := by
  induction l with
  | nil => simp [modifyA]
  | cons p t ih =>
    obtain ⟨k₀, v₀⟩ := p
    by_cases h0 : k₀ = k
    · have := hv v₀ (by rw [lookupA_cons, if_pos h0])
      simp [modifyA, h0, this]
    · simp only [modifyA, if_neg h0]
      exact congrArg (List.cons (k₀, v₀))
        (ih fun v hvv => hv v (by rw [lookupA_cons, if_neg h0]; exact hvv))

theorem modifyA_modifyA (l : List (String × α)) (k : String) (f g : α → α) :
    modifyA (modifyA l k f) k g = modifyA l k (g ∘ f) := by
  induction l with
  | nil => simp [modifyA]
  | cons p t ih =>
    obtain ⟨k₀, v₀⟩ := p
    by_cases h0 : k₀ = k <;> simp [modifyA, h0, ih]

theorem mem_of_lookupA {l : List (String × α)} {k : String} {v : α}
    (h : lookupA l k = some v) : (k, v) ∈ l := by
  induction l with
  | nil => simp [lookupA] at h
  | cons p t ih =>
    obtain ⟨k₀, v₀⟩ := p
    rw [lookupA_cons] at h
    by_cases h0 : k₀ = k
    · subst h0
      rw [if_pos rfl] at h
      have hv := Option.some.inj h
      subst hv
      exact List.mem_cons_self _ _
    · rw [if_neg h0] at h
      exact List.mem_cons_of_mem _ (ih h)

theorem lookupA_of_mem {l : List (String × α)} {k : String} {v : α}
    (hnd : WFa l) (h : (k, v) ∈ l) : lookupA l k = some v := by
  induction l with
  | nil => simp at h
  | cons p t ih =>
    obtain ⟨k₀, v₀⟩ := p
    have hnd2 : k₀ ∉ keysA t ∧ WFa t := by
      simpa [WFa, keysA, List.nodup_cons] using hnd
    rcases List.mem_cons.1 h with h1 | h1
    · rw [Prod.mk.injEq] at h1
      obtain ⟨rfl, rfl⟩ := h1
      rw [lookupA_cons, if_pos rfl]
    · have hk : k₀ ≠ k := by
        rintro rfl
        exact hnd2.1 (by simp only [keysA, List.mem_map]; exact ⟨(k₀, v), h1, rfl⟩)
      rw [lookupA_cons, if_neg hk]
      exact ih hnd2.2 h1

theorem lookupA_isSome_of_mem_keys {l : List (String × α)} {k : String}
    (h : k ∈ keysA l) : (lookupA l k).isSome = true := by
  induction l with
  | nil => simp [keysA] at h
  | cons p t ih =>
    obtain ⟨k₀, v₀⟩ := p
    rw [lookupA_cons]
    by_cases h0 : k₀ = k
    · simp [h0]
    · rw [if_neg h0]
      apply ih
      have h1 : k = k₀ ∨ k ∈ keysA t := by
        simpa [keysA, List.mem_cons] using h
      rcases h1 with h1 | h1
      · exact absurd h1.symm h0
      · exact h1

theorem mem_keys_of_lookupA_isSome {l : List (String × α)} {k : String}
    (h : (lookupA l k).isSome = true) : k ∈ keysA l := by
  rcases Option.isSome_iff_exists.1 h with ⟨v, hv⟩
  have := mem_of_lookupA hv
  simp only [keysA, List.mem_map]
  exact ⟨(k, v), this, rfl⟩

theorem lookupA_eq_of_mem_of_mem {l : List (String × α)} {k : String} {v v' : α}
    (hnd : WFa l) (h : (k, v) ∈ l) (h' : (k, v') ∈ l) : v = v' := by
  have h1 := lookupA_of_mem hnd h
  have h2 := lookupA_of_mem hnd h'
  rw [h1] at h2
  exact Option.some.inj h2

end AssocLemmas

/-! ## Route navigation and nested-write lemmas -/

theorem getRoute_eq_some_iff {d : Dataset} {o ds t : String} {bins : Bins} :
    getRoute d o ds t = some bins ↔
      ∃ dm tm, lookupA d o = some dm ∧ lookupA dm ds = some tm ∧
        lookupA tm t = some bins := by
  simp [getRoute, Option.bind_eq_some]

theorem getRoute_setRoute_self {d : Dataset} {o ds t : String} {bins : Bins}
    (h : getRoute d o ds t = some bins) (bins' : Bins) :
    getRoute (setRoute d o ds t bins') o ds t = some bins' := by
  obtain ⟨dm, tm, h1, h2, h3⟩ := getRoute_eq_some_iff.1 h
  simp [getRoute, setRoute, lookupA_modifyA_self, h1, h2, h3]

theorem getRoute_setRoute_ne {d : Dataset} {o ds t : String} (bins : Bins)
    {o' ds' t' : String} (h : o' ≠ o ∨ ds' ≠ ds ∨ t' ≠ t) :
    getRoute (setRoute d o ds t bins) o' ds' t' = getRoute d o' ds' t' := by
  by_cases ho : o' = o
  · subst ho
    by_cases hds : ds' = ds
    · subst hds
      have ht : t' ≠ t := by
        rcases h with h | h | h
        · exact absurd rfl h
        · exact absurd rfl h
        · exact h
      simp only [getRoute, setRoute, lookupA_modifyA_self]
      cases hdo : lookupA d o' with
      | none => rfl
      | some dm =>
        simp only [Option.map_some', Option.some_bind, lookupA_modifyA_self]
        cases hdm : lookupA dm ds' with
        | none => rfl
        | some tm =>
          simp only [Option.map_some', Option.some_bind]
          rw [lookupA_modifyA_ne _ _ _ _ ht]
    · simp only [getRoute, setRoute, lookupA_modifyA_self]
      cases hdo : lookupA d o' with
      | none => rfl
      | some dm =>
        simp only [Option.map_some', Option.some_bind]
        rw [lookupA_modifyA_ne _ _ _ _ hds]
  · simp only [getRoute, setRoute]
    rw [lookupA_modifyA_ne _ _ _ _ ho]

theorem setRoute_setRoute {d : Dataset} {o ds t : String} (b1 b2 : Bins) :
    setRoute (setRoute d o ds t b1) o ds t b2 = setRoute d o ds t b2 := by
  unfold setRoute
  rw [modifyA_modifyA]
  congr 1
  funext dm
  simp only [Function.comp]
  rw [modifyA_modifyA]
  congr 1
  funext tm
  simp only [Function.comp]
  rw [modifyA_modifyA]
  congr 1

theorem setRoute_self {d : Dataset} {o ds t : String} {bins : Bins}
    (h : getRoute d o ds t = some bins) : setRoute d o ds t bins = d := by
  obtain ⟨dm, tm, h1, h2, h3⟩ := getRoute_eq_some_iff.1 h
  unfold setRoute
  apply modifyA_fix
  intro dm' hdm'
  rw [h1] at hdm'
  obtain rfl := Option.some.inj hdm'
  apply modifyA_fix
  intro tm' htm'
  rw [h2] at htm'
  obtain rfl := Option.some.inj htm'
  apply modifyA_fix
  intro bins' hbins'
  rw [h3] at hbins'
  exact Option.some.inj hbins'

theorem setBin_eq_setRoute {d : Dataset} {o ds t : String} {bins : Bins}
    (h : getRoute d o ds t = some bins) (bn : String) (b : Bin) :
    setBin d o ds t bn b = setRoute d o ds t (updateA bins bn b) := by
  obtain ⟨dm, tm, h1, h2, h3⟩ := getRoute_eq_some_iff.1 h
  unfold setBin setRoute
  apply modifyA_congr
  intro dm' hdm'
  rw [h1] at hdm'
  obtain rfl := Option.some.inj hdm'
  apply modifyA_congr
  intro tm' htm'
  rw [h2] at htm'
  obtain rfl := Option.some.inj htm'
  apply modifyA_congr
  intro bins' hbins'
  rw [h3] at hbins'
  rw [(Option.some.inj hbins')]

/-! ## Simulation: the populate loops act route-locally -/

theorem route_fold_nil (stats : String → BinStatsLists) (existing : List String)
    (bins : Bins) : route_fold stats existing [] bins = .ok bins := rfl

theorem route_fold_cons (stats : String → BinStatsLists) (existing : List String)
    (bn : String) (rest : List String) (bins : Bins) :
    route_fold stats existing (bn :: rest) bins =
      (interpolate_bin_data stats bn existing bins).map (updateA bins bn) >>=
        fun bs1 => route_fold stats existing rest bs1 := by
  simp [route_fold, List.foldlM_cons]

/-- The inner loop of `populate_missing_bins` for one combination behaves,
on the dataset, exactly as `route_fold` behaves on that route's bins alone:
the rest of the dataset is carried along unchanged by `setRoute`. -/
theorem fill_loop_sim (stats : String → BinStatsLists) (o ds t : String)
    (existing : List String) :
    ∀ (missing : List String) (pd : Dataset) (bins : Bins),
      getRoute pd o ds t = some bins →
      missing.foldlM (fill_one_bin stats o ds t existing) pd
        = (route_fold stats existing missing bins).map (setRoute pd o ds t) := by
  intro missing
  induction missing with
  | nil =>
    intro pd bins h
    simp only [List.foldlM_nil, route_fold_nil]
    show Except.ok pd = Except.ok (setRoute pd o ds t bins)
    rw [setRoute_self h]
  | cons bn rest ih =>
    intro pd bins h
    rw [List.foldlM_cons, route_fold_cons]
    have hstep : fill_one_bin stats o ds t existing pd bn
        = (interpolate_bin_data stats bn existing bins).map (setBin pd o ds t bn) := by
      unfold fill_one_bin
      rw [h]
      show (interpolate_bin_data stats bn existing bins >>= fun g =>
          pure (setBin pd o ds t bn g)) = _
      cases interpolate_bin_data stats bn existing bins <;> rfl
    rw [hstep]
    cases hint : interpolate_bin_data stats bn existing bins with
    | error e => rfl
    | ok g =>
      have hset : setBin pd o ds t bn g
          = setRoute pd o ds t (updateA bins bn g) := setBin_eq_setRoute h bn g
      have h2 : getRoute (setRoute pd o ds t (updateA bins bn g)) o ds t
          = some (updateA bins bn g) := getRoute_setRoute_self h _
      show (rest.foldlM (fill_one_bin stats o ds t existing)
          (setBin pd o ds t bn g)) = _
      rw [hset, ih _ _ h2]
      show (route_fold stats existing rest (updateA bins bn g)).map
          (setRoute (setRoute pd o ds t (updateA bins bn g)) o ds t)
        = (route_fold stats existing rest (updateA bins bn g)).map
          (setRoute pd o ds t)
      cases route_fold stats existing rest (updateA bins bn g) with
      | error e => rfl
      | ok bins2 =>
        show Except.ok (setRoute (setRoute pd o ds t (updateA bins bn g)) o ds t bins2)
          = Except.ok (setRoute pd o ds t bins2)
        rw [setRoute_setRoute]

theorem fill_combination_eq (stats : String → BinStatsLists) (pd : Dataset)
    (o ds t : String) (missing : List String) (bins : Bins)
    (h : getRoute pd o ds t = some bins) :
    fill_combination stats pd (o, ds, t, missing)
      = (route_fold stats (keysA bins) missing bins).map (setRoute pd o ds t) := by
  unfold fill_combination
  rw [h]
  show missing.foldlM (fill_one_bin stats o ds t (keysA bins)) pd = _
  exact fill_loop_sim stats o ds t (keysA bins) missing pd bins h

theorem triple_ne {o' ds' t' o ds t : String}
    (h : (o', ds', t') ≠ (o, ds, t)) : o' ≠ o ∨ ds' ≠ ds ∨ t' ≠ t := by
  by_cases h1 : o' = o
  · by_cases h2 : ds' = ds
    · by_cases h3 : t' = t
      · exact absurd (by rw [h1, h2, h3]) h
      · exact Or.inr (Or.inr h3)
    · exact Or.inr (Or.inl h2)
  · exact Or.inl h1

/-- The outer loop of `populate_missing_bins`, run over combinations with
pairwise-distinct route paths all present in the dataset: on success, every
combination's route ends up holding exactly the `route_fold` result computed
from that route's bins **as they were when its combination was processed —
which, paths being distinct, is their original state**; every other path is
untouched. -/
theorem populate_loop_sim (stats : String → BinStatsLists) :
    ∀ (combos : List (String × String × String × List String)) (pd pd' : Dataset),
      (combos.map fun c => (c.1, c.2.1, c.2.2.1)).Nodup →
      (∀ c ∈ combos, ∃ bins, getRoute pd c.1 c.2.1 c.2.2.1 = some bins) →
      combos.foldlM (fill_combination stats) pd = .ok pd' →
      (∀ c ∈ combos, ∀ bins, getRoute pd c.1 c.2.1 c.2.2.1 = some bins →
        ∃ bins', route_fold stats (keysA bins) c.2.2.2 bins = .ok bins' ∧
          getRoute pd' c.1 c.2.1 c.2.2.1 = some bins') ∧
      (∀ o ds t, (o, ds, t) ∉ (combos.map fun c => (c.1, c.2.1, c.2.2.1)) →
        getRoute pd' o ds t = getRoute pd o ds t) := by
  intro combos
  induction combos with
  | nil =>
    intro pd pd' _ _ hfold
    obtain rfl : pd = pd' := Except.ok.inj hfold
    exact ⟨fun c hc => absurd hc (List.not_mem_nil c), fun _ _ _ _ => rfl⟩
  | cons c rest ih =>
    obtain ⟨o, ds, t, missing⟩ := c
    intro pd pd' hnd hex hfold
    obtain ⟨bins, hbins⟩ := hex _ (List.mem_cons_self _ _)
    have hnd' := (List.nodup_cons.1 hnd)
    rw [List.foldlM_cons,
      fill_combination_eq stats pd o ds t missing bins hbins] at hfold
    cases hrf : route_fold stats (keysA bins) missing bins with
    | error e =>
      rw [hrf] at hfold
      have hcontra : (Except.error e : Except String Dataset) = .ok pd' := hfold
      cases hcontra
    | ok bins1 =>
      rw [hrf] at hfold
      replace hfold : rest.foldlM (fill_combination stats)
          (setRoute pd o ds t bins1) = .ok pd' := hfold
      have hpd1_self : getRoute (setRoute pd o ds t bins1) o ds t = some bins1 :=
        getRoute_setRoute_self hbins bins1
      have hpd1_ne : ∀ o' ds' t', (o', ds', t') ≠ (o, ds, t) →
          getRoute (setRoute pd o ds t bins1) o' ds' t' = getRoute pd o' ds' t' :=
        fun o' ds' t' hne => getRoute_setRoute_ne bins1 (triple_ne hne)
      have hrestne : ∀ c' ∈ rest, (c'.1, c'.2.1, c'.2.2.1) ≠ ((o : String), ds, t) := by
        intro c' hc' hEq
        apply hnd'.1
        show ((o : String), ds, t) ∈ rest.map fun c => (c.1, c.2.1, c.2.2.1)
        rw [← hEq]
        exact List.mem_map_of_mem _ hc'
      have hex' : ∀ c' ∈ rest,
          ∃ bins0, getRoute (setRoute pd o ds t bins1) c'.1 c'.2.1 c'.2.2.1 = some bins0 := by
        intro c' hc'
        obtain ⟨bins0, hb0⟩ := hex c' (List.mem_cons_of_mem _ hc')
        exact ⟨bins0, by rw [hpd1_ne _ _ _ (hrestne c' hc')]; exact hb0⟩
      obtain ⟨Arest, Brest⟩ := ih (setRoute pd o ds t bins1) pd' hnd'.2 hex' hfold
      constructor
      · intro c' hc' bins0 hbins0
        rcases List.mem_cons.1 hc' with h1 | h1
        · subst h1
          rw [hbins] at hbins0
          obtain rfl := Option.some.inj hbins0
          refine ⟨bins1, hrf, ?_⟩
          rw [Brest o ds t hnd'.1]
          exact hpd1_self
        · have hb1 : getRoute (setRoute pd o ds t bins1) c'.1 c'.2.1 c'.2.2.1
              = some bins0 := by
            rw [hpd1_ne _ _ _ (hrestne c' h1)]
            exact hbins0
          exact Arest c' h1 bins0 hb1
      · intro o' ds' t' hnotin
        have h1 : (o', ds', t') ∉ rest.map fun c => (c.1, c.2.1, c.2.2.1) :=
          fun hmem => hnotin (List.mem_cons_of_mem _ hmem)
        have h2 : ((o' : String), ds', t') ≠ (o, ds, t) := by
          intro hEq
          apply hnotin
          show ((o' : String), ds', t')
            ∈ (((o : String), ds, t, missing) :: rest).map fun c => (c.1, c.2.1, c.2.2.1)
          rw [hEq]
          exact List.mem_cons_self _ _
        rw [Brest o' ds' t' h1, hpd1_ne o' ds' t' h2]

/-- Totality of the outer loop: when every combination's route exists and
its `route_fold` succeeds, the whole populate loop succeeds. -/
theorem populate_loop_total (stats : String → BinStatsLists) :
    ∀ (combos : List (String × String × String × List String)) (pd : Dataset),
      (combos.map fun c => (c.1, c.2.1, c.2.2.1)).Nodup →
      (∀ c ∈ combos, ∃ bins, getRoute pd c.1 c.2.1 c.2.2.1 = some bins ∧
        ∃ bins', route_fold stats (keysA bins) c.2.2.2 bins = .ok bins') →
      ∃ pd', combos.foldlM (fill_combination stats) pd = .ok pd' := by
  intro combos
  induction combos with
  | nil =>
    intro pd _ _
    exact ⟨pd, rfl⟩
  | cons c rest ih =>
    obtain ⟨o, ds, t, missing⟩ := c
    intro pd hnd hex
    obtain ⟨bins, hbins, bins1, hrf⟩ := hex _ (List.mem_cons_self _ _)
    have hnd' := (List.nodup_cons.1 hnd)
    have hrestne : ∀ c' ∈ rest, (c'.1, c'.2.1, c'.2.2.1) ≠ ((o : String), ds, t) := by
      intro c' hc' hEq
      apply hnd'.1
      show ((o : String), ds, t) ∈ rest.map fun c => (c.1, c.2.1, c.2.2.1)
      rw [← hEq]
      exact List.mem_map_of_mem _ hc'
    have hpd1_ne : ∀ o' ds' t', (o', ds', t') ≠ (o, ds, t) →
        getRoute (setRoute pd o ds t bins1) o' ds' t' = getRoute pd o' ds' t' :=
      fun o' ds' t' hne => getRoute_setRoute_ne bins1 (triple_ne hne)
    have hex' : ∀ c' ∈ rest,
        ∃ bins0, getRoute (setRoute pd o ds t bins1) c'.1 c'.2.1 c'.2.2.1 = some bins0 ∧
          ∃ bins0', route_fold stats (keysA bins0) c'.2.2.2 bins0 = .ok bins0' := by
      intro c' hc'
      obtain ⟨bins0, hb0, hrf0⟩ := hex c' (List.mem_cons_of_mem _ hc')
      exact ⟨bins0, by rw [hpd1_ne _ _ _ (hrestne c' hc')]; exact hb0, hrf0⟩
    obtain ⟨pd', hpd'⟩ := ih (setRoute pd o ds t bins1) hnd'.2 hex'
    refine ⟨pd', ?_⟩
    rw [List.foldlM_cons, fill_combination_eq stats pd o ds t missing bins hbins, hrf]
    exact hpd'

/-! ## Characterizing `find_missing_bins` -/

theorem find_missing_bins_sound {d : Dataset}
    {c : String × String × String × List String} (h : c ∈ find_missing_bins d) :
    ∃ p1, p1 ∈ d ∧ ∃ p2, p2 ∈ p1.2 ∧ ∃ p3, p3 ∈ p2.2 ∧
      missing_of p3.2 ≠ [] ∧ c = (p1.1, p2.1, p3.1, missing_of p3.2) := by
  unfold find_missing_bins at h
  rw [List.mem_flatMap] at h
  obtain ⟨p1, h1, h⟩ := h
  rw [List.mem_flatMap] at h
  obtain ⟨p2, h2, h⟩ := h
  rw [List.mem_filterMap] at h
  obtain ⟨p3, h3, h⟩ := h
  by_cases he : (missing_of p3.2).isEmpty
  · rw [if_pos he] at h
    cases h
  · rw [if_neg he] at h
    refine ⟨p1, h1, p2, h2, p3, h3, ?_, (Option.some.inj h).symm⟩
    intro hnil
    rw [hnil] at he
    exact he rfl

theorem find_missing_bins_complete {d : Dataset} {p1 : String × DestMap}
    {p2 : String × TickerMap} {p3 : String × Bins}
    (h1 : p1 ∈ d) (h2 : p2 ∈ p1.2) (h3 : p3 ∈ p2.2)
    (hm : missing_of p3.2 ≠ []) :
    (p1.1, p2.1, p3.1, missing_of p3.2) ∈ find_missing_bins d := by
  unfold find_missing_bins
  rw [List.mem_flatMap]
  refine ⟨p1, h1, ?_⟩
  rw [List.mem_flatMap]
  refine ⟨p2, h2, ?_⟩
  rw [List.mem_filterMap]
  refine ⟨p3, h3, ?_⟩
  rw [if_neg ?_]
  intro he
  exact hm (List.isEmpty_iff.1 he)

theorem getRoute_of_mem {d : Dataset} {p1 : String × DestMap}
    {p2 : String × TickerMap} {p3 : String × Bins}
    (hwf : WFdataset d) (h1 : p1 ∈ d) (h2 : p2 ∈ p1.2) (h3 : p3 ∈ p2.2) :
    getRoute d p1.1 p2.1 p3.1 = some p3.2 := by
  obtain ⟨hw1, hw2⟩ := hwf
  have e1 : lookupA d p1.1 = some p1.2 :=
    lookupA_of_mem hw1 ((Prod.mk.eta (p := p1)).symm ▸ h1)
  have e2 : lookupA p1.2 p2.1 = some p2.2 :=
    lookupA_of_mem (hw2 p1 h1).1 ((Prod.mk.eta (p := p2)).symm ▸ h2)
  have e3 : lookupA p2.2 p3.1 = some p3.2 :=
    lookupA_of_mem ((hw2 p1 h1).2 p2 h2) ((Prod.mk.eta (p := p3)).symm ▸ h3)
  simp [getRoute, e1, e2, e3]

theorem mem_of_getRoute {d : Dataset} {o ds t : String} {bins : Bins}
    (h : getRoute d o ds t = some bins) :
    ∃ dm tm, (o, dm) ∈ d ∧ (ds, tm) ∈ dm ∧ (t, bins) ∈ tm := by
  obtain ⟨dm, tm, e1, e2, e3⟩ := getRoute_eq_some_iff.1 h
  exact ⟨dm, tm, mem_of_lookupA e1, mem_of_lookupA e2, mem_of_lookupA e3⟩

theorem nodup_flatMap_tagged {α β : Type} (l : List (String × α))
    (g : String × α → List β) (tag : β → String)
    (hkeys : (l.map Prod.fst).Nodup)
    (htag : ∀ p ∈ l, ∀ b ∈ g p, tag b = p.1)
    (hnd : ∀ p ∈ l, (g p).Nodup) : (l.flatMap g).Nodup := by
  induction l with
  | nil => simp
  | cons p t ih =>
    rw [List.map_cons, List.nodup_cons] at hkeys
    rw [List.flatMap_cons, List.nodup_append]
    refine ⟨hnd p (List.mem_cons_self _ _), ih hkeys.2 ?_ ?_, ?_⟩
    · intro q hq b hb
      exact htag q (List.mem_cons_of_mem _ hq) b hb
    · intro q hq
      exact hnd q (List.mem_cons_of_mem _ hq)
    · intro b hb1 hb2
      rw [List.mem_flatMap] at hb2
      obtain ⟨q, hq, hbq⟩ := hb2
      have e1 := htag p (List.mem_cons_self _ _) b hb1
      have e2 := htag q (List.mem_cons_of_mem _ hq) b hbq
      apply hkeys.1
      rw [← e1, e2]
      exact List.mem_map_of_mem _ hq

theorem filterMap_sublist_map {α β : Type} (l : List α) (f : α → Option β)
    (g : α → β) (h : ∀ a b, f a = some b → b = g a) :
    (l.filterMap f).Sublist (l.map g) := by
  induction l with
  | nil => simp
  | cons a t ih =>
    rw [List.map_cons, List.filterMap_cons]
    cases hfa : f a with
    | none => exact List.Sublist.cons _ ih
    | some b =>
      rw [h a b hfa]
      exact List.Sublist.cons₂ _ ih

/-- With unique keys at every level, the route paths named by
`find_missing_bins` are pairwise distinct. -/
theorem fmb_paths_nodup {d : Dataset} (hwf : WFdataset d) :
    ((find_missing_bins d).map fun c => (c.1, c.2.1, c.2.2.1)).Nodup := by
  unfold find_missing_bins
  rw [List.map_flatMap]
  apply nodup_flatMap_tagged _ _ (fun path : String × String × String => path.1)
  · exact hwf.1
  · intro p1 h1 path hpath
    rw [List.map_flatMap, List.mem_flatMap] at hpath
    obtain ⟨p2, h2, hpath⟩ := hpath
    rw [List.map_filterMap, List.mem_filterMap] at hpath
    obtain ⟨p3, h3, hp3⟩ := hpath
    by_cases he : (missing_of p3.2).isEmpty
    · rw [if_pos he] at hp3
      cases hp3
    · rw [if_neg he] at hp3
      obtain rfl := Option.some.inj hp3
      rfl
  · intro p1 h1
    rw [List.map_flatMap]
    apply nodup_flatMap_tagged _ _ (fun path : String × String × String => path.2.1)
    · exact (hwf.2 p1 h1).1
    · intro p2 h2 path hpath
      rw [List.map_filterMap, List.mem_filterMap] at hpath
      obtain ⟨p3, h3, hp3⟩ := hpath
      by_cases he : (missing_of p3.2).isEmpty
      · rw [if_pos he] at hp3
        cases hp3
      · rw [if_neg he] at hp3
        obtain rfl := Option.some.inj hp3
        rfl
    · intro p2 h2
      rw [List.map_filterMap]
      have hsub : (p2.2.filterMap fun p3 =>
            ((if (missing_of p3.2).isEmpty then none
              else some (p1.1, p2.1, p3.1, missing_of p3.2)).map
                fun c => (c.1, c.2.1, c.2.2.1))).Sublist
          (p2.2.map fun p3 => (p1.1, p2.1, p3.1)) := by
        apply filterMap_sublist_map
        intro p3 path hsome
        by_cases he : (missing_of p3.2).isEmpty
        · rw [if_pos he] at hsome
          cases hsome
        · rw [if_neg he] at hsome
          exact (Option.some.inj hsome).symm
      apply List.Nodup.sublist hsub
      have hk : (p2.2.map Prod.fst).Nodup := (hwf.2 p1 h1).2 p2 h2
      have hmm : p2.2.map (fun p3 => ((p1.1 : String), p2.1, p3.1))
          = (p2.2.map Prod.fst).map fun k => (p1.1, p2.1, k) := by
        rw [List.map_map]
        rfl
      rw [hmm]
      refine hk.map ?_
      intro a b hab
      simpa [Prod.ext_iff] using hab

/-! ## Totality of the strategy cascade on numeric data -/

/-- The shape invariant of a global statistics table built by
`collect_bin_statistics` from an all-numeric dataset: the three metric
lists are equally long and every collected value is numeric. -/
def StatsWF (stats : String → BinStatsLists) : Prop :=
  ∀ b, (stats b).p50.length = (stats b).p25.length ∧
    (stats b).p75.length = (stats b).p25.length ∧
    (∀ v ∈ (stats b).p25, v.isNum = true) ∧
    (∀ v ∈ (stats b).p50, v.isNum = true) ∧
    (∀ v ∈ (stats b).p75, v.isNum = true)

theorem toNums_of_num {l : List JVal} (hnum : ∀ v ∈ l, v.isNum = true) :
    ∃ qs, toNums l = some qs ∧ qs.length = l.length := by
  induction l with
  | nil => exact ⟨[], rfl, rfl⟩
  | cons v t ih =>
    obtain ⟨qs, hqs, hlen⟩ := ih fun w hw => hnum w (List.mem_cons_of_mem _ hw)
    have hv := hnum v (List.mem_cons_self _ _)
    cases v with
    | str s => simp [JVal.isNum] at hv
    | num q =>
      refine ⟨q :: qs, ?_, by simp [hlen]⟩
      simp [toNums, toNum, hqs]

theorem pymean_ok {l : List JVal} (hnum : ∀ v ∈ l, v.isNum = true)
    (hne : l ≠ []) : ∃ q, pymean l = .ok q := by
  obtain ⟨qs, hqs, hlen⟩ := toNums_of_num hnum
  refine ⟨qs.sum / (qs.length : ℚ), ?_⟩
  unfold pymean
  rw [hqs]
  have hq0 : ¬qs.length = 0 := by
    rw [hlen]
    exact fun h0 => hne (List.eq_nil_of_length_eq_zero h0)
  simp [hq0]

theorem mem_updateA {α : Type} {l : List (String × α)} {k : String} {v : α}
    {p : String × α} (h : p ∈ updateA l k v) : p = (k, v) ∨ p ∈ l := by
  induction l with
  | nil => simpa [updateA] using h
  | cons q t ih =>
    obtain ⟨k₀, v₀⟩ := q
    by_cases h0 : k₀ = k
    · rw [updateA, if_pos h0] at h
      rcases List.mem_cons.1 h with h1 | h1
      · exact Or.inl h1
      · exact Or.inr (List.mem_cons_of_mem _ h1)
    · rw [updateA, if_neg h0] at h
      rcases List.mem_cons.1 h with h1 | h1
      · exact Or.inr (h1 ▸ List.mem_cons_self _ _)
      · rcases ih h1 with h2 | h2
        · exact Or.inl h2
        · exact Or.inr (List.mem_cons_of_mem _ h2)

theorem lookupA_updateA_isSome {α : Type} {l : List (String × α)} {k' : String}
    (k : String) (v : α) (h : (lookupA l k').isSome = true) :
    (lookupA (updateA l k v) k').isSome = true := by
  by_cases hk : k' = k
  · subst hk
    rw [lookupA_updateA_self]
    rfl
  · rw [lookupA_updateA_ne _ _ _ _ hk]
    exact h

/-- Strategy-1 reduction: when the route's current bin dict holds a
`"0-50000"` bin with numeric `p50`, the cascade commits to
`baseline_scaling` immediately. -/
theorem interpolate_eq_of_baseline {stats : String → BinStatsLists}
    {target : String} {existing : List String} {rd : Bins} {b : Bin} {q : ℚ}
    (hlb : lookupA rd "0-50000" = some b) (hq : b.p50 = .num q) :
    interpolate_bin_data stats target existing rd
      = .ok (baseline_scaled_bin q target "baseline_scaling") := by
  unfold interpolate_bin_data
  rw [hlb]
  show (match b.p50 with
    | JVal.num baseline_p50 =>
        Except.ok (baseline_scaled_bin baseline_p50 target "baseline_scaling")
    | JVal.str _ => Except.error pyTypeError) = _
  rw [hq]

/-- Strategy-1 failure: a non-numeric route baseline `p50` raises the
(untyped) `TypeError`, naming neither route nor bucket. -/
theorem interpolate_eq_of_baseline_str {stats : String → BinStatsLists}
    {target : String} {existing : List String} {rd : Bins} {b : Bin} {str0 : String}
    (hlb : lookupA rd "0-50000" = some b) (hq : b.p50 = .str str0) :
    interpolate_bin_data stats target existing rd = .error pyTypeError := by
  unfold interpolate_bin_data
  rw [hlb]
  show (match b.p50 with
    | JVal.num baseline_p50 =>
        Except.ok (baseline_scaled_bin baseline_p50 target "baseline_scaling")
    | JVal.str _ => Except.error pyTypeError) = _
  rw [hq]

/-- Reduction of the cascade when the route has no `"0-50000"` bin. -/
theorem interpolate_eq_no_baseline {stats : String → BinStatsLists}
    {target : String} {existing : List String} {rd : Bins}
    (hlb : lookupA rd "0-50000" = none) :
    interpolate_bin_data stats target existing rd
      = if (stats "0-50000").p50 ≠ [] then
          (pymean (stats "0-50000").p50).map fun baseline_p50 =>
            baseline_scaled_bin baseline_p50 target "baseline_scaling_global"
        else
          (collect_surrounding stats (get_bin_index target) existing) >>=
            fun surrounding =>
              if surrounding ≠ [] then pure (weighted_bin surrounding)
              else if (stats target).p25 ≠ [] then
                pymean (stats target).p25 >>= fun m25 =>
                pymean (stats target).p50 >>= fun m50 =>
                pymean (stats target).p75 >>= fun m75 =>
                pure (cross_bin m25 m50 m75)
              else pure default_fallback_bin := by
  unfold interpolate_bin_data
  rw [hlb]

/-- Every bin an `interpolate_bin_data` success returns has a numeric
`p50` (all five strategies write `.num` statistics). -/
theorem interpolate_p50_num {stats : String → BinStatsLists} {target : String}
    {existing : List String} {rd : Bins} {g : Bin}
    (h : interpolate_bin_data stats target existing rd = .ok g) :
    ∃ q, g.p50 = .num q := by
  cases hlb : lookupA rd "0-50000" with
  | some b =>
    cases hp : b.p50 with
    | num q =>
      rw [interpolate_eq_of_baseline hlb hp] at h
      exact ⟨_, congrArg Bin.p50 (Except.ok.inj h).symm⟩
    | str s =>
      rw [interpolate_eq_of_baseline_str hlb hp] at h
      cases h
  | none =>
    rw [interpolate_eq_no_baseline hlb] at h
    by_cases hg : (stats "0-50000").p50 ≠ []
    · rw [if_pos hg] at h
      cases hm : pymean (stats "0-50000").p50 with
      | error e => rw [hm] at h; cases h
      | ok q =>
        rw [hm] at h
        exact ⟨_, congrArg Bin.p50 (Except.ok.inj h).symm⟩
    · rw [if_neg hg] at h
      cases hs : collect_surrounding stats (get_bin_index target) existing with
      | error e => rw [hs] at h; cases h
      | ok s =>
        rw [hs] at h
        by_cases hsne : s ≠ []
        · rw [show ((Except.ok s : Except String (List (ℚ × ℚ × ℚ × ℚ))) >>= fun surrounding =>
              if surrounding ≠ [] then pure (weighted_bin surrounding)
              else if (stats target).p25 ≠ [] then
                pymean (stats target).p25 >>= fun m25 =>
                pymean (stats target).p50 >>= fun m50 =>
                pymean (stats target).p75 >>= fun m75 =>
                pure (cross_bin m25 m50 m75)
              else pure default_fallback_bin)
            = (if s ≠ [] then pure (weighted_bin s)
              else if (stats target).p25 ≠ [] then
                pymean (stats target).p25 >>= fun m25 =>
                pymean (stats target).p50 >>= fun m50 =>
                pymean (stats target).p75 >>= fun m75 =>
                pure (cross_bin m25 m50 m75)
              else pure default_fallback_bin) from rfl, if_pos hsne] at h
          exact ⟨_, congrArg Bin.p50 (Except.ok.inj h).symm⟩
        · rw [show ((Except.ok s : Except String (List (ℚ × ℚ × ℚ × ℚ))) >>= fun surrounding =>
              if surrounding ≠ [] then pure (weighted_bin surrounding)
              else if (stats target).p25 ≠ [] then
                pymean (stats target).p25 >>= fun m25 =>
                pymean (stats target).p50 >>= fun m50 =>
                pymean (stats target).p75 >>= fun m75 =>
                pure (cross_bin m25 m50 m75)
              else pure default_fallback_bin)
            = (if s ≠ [] then pure (weighted_bin s)
              else if (stats target).p25 ≠ [] then
                pymean (stats target).p25 >>= fun m25 =>
                pymean (stats target).p50 >>= fun m50 =>
                pymean (stats target).p75 >>= fun m75 =>
                pure (cross_bin m25 m50 m75)
              else pure default_fallback_bin) from rfl, if_neg hsne] at h
          by_cases ht : (stats target).p25 ≠ []
          · rw [if_pos ht] at h
            cases hm1 : pymean (stats target).p25 with
            | error e => rw [hm1] at h; cases h
            | ok m25 =>
              rw [hm1] at h
              cases hm2 : pymean (stats target).p50 with
              | error e => rw [hm2] at h; cases h
              | ok m50 =>
                rw [hm2] at h
                cases hm3 : pymean (stats target).p75 with
                | error e => rw [hm3] at h; cases h
                | ok m75 =>
                  rw [hm3] at h
                  exact ⟨_, congrArg Bin.p50 (Except.ok.inj h).symm⟩
          · rw [if_neg ht] at h
            exact ⟨_, congrArg Bin.p50 (Except.ok.inj h).symm⟩

theorem except_ok_bind {ε α β : Type} (a : α) (f : α → Except ε β) :
    (Except.ok a : Except ε α) >>= f = f a := rfl

theorem except_error_bind {ε α β : Type} (e : ε) (f : α → Except ε β) :
    (Except.error e : Except ε α) >>= f = Except.error e := rfl

theorem length_ne_nil_of_eq {l l' : List JVal} (hlen : l.length = l'.length)
    (h : l' ≠ []) : l ≠ [] := by
  intro h0
  apply h
  apply List.eq_nil_of_length_eq_zero
  rw [← hlen, h0]
  rfl

theorem surrounding_step_ok {stats : String → BinStatsLists} {ti : Int}
    (hs : StatsWF stats) (acc : List (ℚ × ℚ × ℚ × ℚ)) (bn : String) :
    ∃ acc', surrounding_step stats ti acc bn = .ok acc' := by
  unfold surrounding_step
  by_cases h1 : (stats bn).p25 ≠ []
  · rw [if_pos h1]
    by_cases h2 : get_bin_index bn ≠ -1
    · rw [if_pos h2]
      obtain ⟨m1, hm1⟩ := pymean_ok (hs bn).2.2.1 h1
      obtain ⟨m2, hm2⟩ := pymean_ok (hs bn).2.2.2.1 (length_ne_nil_of_eq (hs bn).1 h1)
      obtain ⟨m3, hm3⟩ := pymean_ok (hs bn).2.2.2.2 (length_ne_nil_of_eq (hs bn).2.1 h1)
      rw [hm1, except_ok_bind, hm2, except_ok_bind, hm3, except_ok_bind]
      exact ⟨_, rfl⟩
    · rw [if_neg h2]
      exact ⟨acc, rfl⟩
  · rw [if_neg h1]
    exact ⟨acc, rfl⟩

theorem collect_surrounding_ok {stats : String → BinStatsLists} {ti : Int}
    (hs : StatsWF stats) (existing : List String) :
    ∃ s, collect_surrounding stats ti existing = .ok s := by
  unfold collect_surrounding
  suffices h : ∀ acc : List (ℚ × ℚ × ℚ × ℚ),
      ∃ s, existing.foldlM (surrounding_step stats ti) acc = .ok s from h []
  induction existing with
  | nil => exact fun acc => ⟨acc, rfl⟩
  | cons bn rest ih =>
    intro acc
    rw [List.foldlM_cons]
    obtain ⟨acc', hacc'⟩ := surrounding_step_ok hs acc bn
    rw [hacc', except_ok_bind]
    exact ih acc'

theorem interpolate_ok {stats : String → BinStatsLists} (hs : StatsWF stats)
    (target : String) (existing : List String) (rd : Bins)
    (hb : ∀ b, lookupA rd "0-50000" = some b → ∃ q, b.p50 = .num q) :
    ∃ g, interpolate_bin_data stats target existing rd = .ok g := by
  cases hlb : lookupA rd "0-50000" with
  | some b =>
    obtain ⟨q, hq⟩ := hb b hlb
    exact ⟨_, interpolate_eq_of_baseline hlb hq⟩
  | none =>
    rw [interpolate_eq_no_baseline hlb]
    by_cases hg : (stats "0-50000").p50 ≠ []
    · rw [if_pos hg]
      obtain ⟨q, hq⟩ := pymean_ok (hs "0-50000").2.2.2.1 hg
      rw [hq]
      exact ⟨_, rfl⟩
    · rw [if_neg hg]
      obtain ⟨srd, hsrd⟩ := collect_surrounding_ok hs existing
      rw [hsrd, except_ok_bind]
      by_cases hsne : srd ≠ []
      · rw [if_pos hsne]
        exact ⟨_, rfl⟩
      · rw [if_neg hsne]
        by_cases ht : (stats target).p25 ≠ []
        · rw [if_pos ht]
          obtain ⟨m1, hm1⟩ := pymean_ok (hs target).2.2.1 ht
          obtain ⟨m2, hm2⟩ := pymean_ok (hs target).2.2.2.1 (length_ne_nil_of_eq (hs target).1 ht)
          obtain ⟨m3, hm3⟩ := pymean_ok (hs target).2.2.2.2 (length_ne_nil_of_eq (hs target).2.1 ht)
          rw [hm1, except_ok_bind, hm2, except_ok_bind, hm3, except_ok_bind]
          exact ⟨_, rfl⟩
        · rw [if_neg ht]
          exact ⟨_, rfl⟩

theorem mem_all_dataset_bins {d : Dataset} {p : String × Bin} :
    p ∈ all_dataset_bins d ↔ ∃ p1, p1 ∈ d ∧ ∃ p2, p2 ∈ p1.2 ∧ ∃ p3, p3 ∈ p2.2 ∧ p ∈ p3.2 := by
  simp [all_dataset_bins, List.mem_flatMap]

/-- `collect_bin_statistics` of an all-numeric dataset yields a
well-shaped, all-numeric statistics table. -/
theorem collect_stats_wf {d : Dataset} (hnum : AllNumeric d) :
    StatsWF (collect_bin_statistics d) := by
  intro b
  unfold collect_bin_statistics
  by_cases hb : b ∈ EXPECTED_BINS
  · rw [if_pos hb]
    simp only
    have hmem : ∀ bin ∈ (all_dataset_bins d).filterMap
        (fun p => if p.1 = b then some p.2 else none),
        ((bin : Bin).p25.isNum && bin.p50.isNum && bin.p75.isNum) = true := by
      intro bin hbin
      rw [List.mem_filterMap] at hbin
      obtain ⟨p, hp, hsome⟩ := hbin
      have hpv : p.2 = bin := by
        by_cases he : p.1 = b
        · rw [if_pos he] at hsome
          exact Option.some.inj hsome
        · rw [if_neg he] at hsome
          cases hsome
      obtain ⟨p1, h1, p2, h2, p3, h3, hpmem⟩ := mem_all_dataset_bins.1 hp
      have := hnum p1 h1 p2 h2 p3 h3 p hpmem
      rw [hpv] at this
      exact this
    refine ⟨by rw [List.length_map, List.length_map],
      by rw [List.length_map, List.length_map], ?_, ?_, ?_⟩
    · intro v hv
      rw [List.mem_map] at hv
      obtain ⟨bin, hbin, rfl⟩ := hv
      have := hmem bin hbin
      rw [Bool.and_assoc] at this
      exact (Bool.and_eq_true_iff.1 this).1
    · intro v hv
      rw [List.mem_map] at hv
      obtain ⟨bin, hbin, rfl⟩ := hv
      have := hmem bin hbin
      rw [Bool.and_assoc] at this
      exact (Bool.and_eq_true_iff.1 (Bool.and_eq_true_iff.1 this).2).1
    · intro v hv
      rw [List.mem_map] at hv
      obtain ⟨bin, hbin, rfl⟩ := hv
      have := hmem bin hbin
      rw [Bool.and_assoc] at this
      exact (Bool.and_eq_true_iff.1 (Bool.and_eq_true_iff.1 this).2).2
  · rw [if_neg hb]
    exact ⟨rfl, rfl, fun v hv => absurd hv (List.not_mem_nil v),
      fun v hv => absurd hv (List.not_mem_nil v),
      fun v hv => absurd hv (List.not_mem_nil v)⟩

/-- Every bin of the dict has a numeric `p50`. -/
def BinsP50Num (bins : Bins) : Prop := ∀ p ∈ bins, ∃ q, (p.2 : Bin).p50 = .num q

theorem route_fold_ok {stats : String → BinStatsLists} (hs : StatsWF stats)
    (existing : List String) :
    ∀ (missing : List String) (bs : Bins), BinsP50Num bs →
      ∃ bs', route_fold stats existing missing bs = .ok bs' ∧ BinsP50Num bs' := by
  intro missing
  induction missing with
  | nil => exact fun bs h => ⟨bs, rfl, h⟩
  | cons bn rest ih =>
    intro bs h
    have hb : ∀ b, lookupA bs "0-50000" = some b → ∃ q, b.p50 = .num q :=
      fun b hbmem => h _ (mem_of_lookupA hbmem)
    obtain ⟨g, hg⟩ := interpolate_ok hs bn existing bs hb
    have hgnum := interpolate_p50_num hg
    have hupd : BinsP50Num (updateA bs bn g) := by
      intro p hp
      rcases mem_updateA hp with h1 | h1
      · rw [h1]
        exact hgnum
      · exact h _ h1
    obtain ⟨bs', hbs', hnum'⟩ := ih (updateA bs bn g) hupd
    refine ⟨bs', ?_, hnum'⟩
    rw [route_fold_cons, hg]
    show route_fold stats existing rest (updateA bs bn g) = .ok bs'
    exact hbs'

theorem route_fold_keys {stats : String → BinStatsLists} {existing : List String} :
    ∀ (missing : List String) (bs bs' : Bins),
      route_fold stats existing missing bs = .ok bs' →
      ∀ bn, (bn ∈ missing ∨ (lookupA bs bn).isSome = true) →
        (lookupA bs' bn).isSome = true := by
  intro missing
  induction missing with
  | nil =>
    intro bs bs' h bn hbn
    obtain rfl := Except.ok.inj h
    rcases hbn with h1 | h1
    · exact absurd h1 (List.not_mem_nil bn)
    · exact h1
  | cons bn0 rest ih =>
    intro bs bs' h bn hbn
    rw [route_fold_cons] at h
    cases hint : interpolate_bin_data stats bn0 existing bs with
    | error e =>
      rw [hint] at h
      cases h
    | ok g =>
      rw [hint] at h
      replace h : route_fold stats existing rest (updateA bs bn0 g) = .ok bs' := h
      apply ih _ _ h
      rcases hbn with h1 | h1
      · rcases List.mem_cons.1 h1 with h2 | h2
        · subst h2
          right
          rw [lookupA_updateA_self]
          rfl
        · exact Or.inl h2
      · exact Or.inr (lookupA_updateA_isSome _ _ h1)

theorem route_fold_preserves {stats : String → BinStatsLists} {existing : List String} :
    ∀ (missing : List String) (bs bs' : Bins),
      route_fold stats existing missing bs = .ok bs' →
      ∀ bn, bn ∉ missing → lookupA bs' bn = lookupA bs bn := by
  intro missing
  induction missing with
  | nil =>
    intro bs bs' h bn _
    obtain rfl := Except.ok.inj h
    rfl
  | cons bn0 rest ih =>
    intro bs bs' h bn hbn
    rw [route_fold_cons] at h
    cases hint : interpolate_bin_data stats bn0 existing bs with
    | error e =>
      rw [hint] at h
      cases h
    | ok g =>
      rw [hint] at h
      replace h : route_fold stats existing rest (updateA bs bn0 g) = .ok bs' := h
      have hne : bn ≠ bn0 := fun he => hbn (he ▸ List.mem_cons_self _ _)
      rw [ih _ _ h bn (fun hm => hbn (List.mem_cons_of_mem _ hm)),
        lookupA_updateA_ne _ _ _ _ hne]

/-- When the (current) bin dict holds a numeric `"0-50000"` baseline and
that bucket is not among those being filled, every filled bucket receives
exactly the route-baseline-scaled bin — `method = "baseline_scaling"`. -/
theorem route_fold_baseline_all {stats : String → BinStatsLists}
    {existing : List String} :
    ∀ (missing : List String) (bs bs' : Bins) (b0 : Bin) (q : ℚ),
      lookupA bs "0-50000" = some b0 → b0.p50 = .num q →
      "0-50000" ∉ missing → missing.Nodup →
      route_fold stats existing missing bs = .ok bs' →
      ∀ bn ∈ missing,
        lookupA bs' bn = some (baseline_scaled_bin q bn "baseline_scaling") := by
  intro missing
  induction missing with
  | nil =>
    intro bs bs' b0 q _ _ _ _ _ bn hbn
    exact absurd hbn (List.not_mem_nil bn)
  | cons bn0 rest ih =>
    intro bs bs' b0 q h0 hq hnotin hnd h
    have hne0 : "0-50000" ≠ bn0 := fun he => hnotin (he ▸ List.mem_cons_self _ _)
    rw [route_fold_cons, interpolate_eq_of_baseline h0 hq] at h
    replace h : route_fold stats existing rest
        (updateA bs bn0 (baseline_scaled_bin q bn0 "baseline_scaling")) = .ok bs' := h
    have hb0' : lookupA (updateA bs bn0 (baseline_scaled_bin q bn0 "baseline_scaling"))
        "0-50000" = some b0 := by
      rw [lookupA_updateA_ne _ _ _ _ hne0]
      exact h0
    intro bn hbn
    rcases List.mem_cons.1 hbn with h1 | h1
    · subst h1
      rw [route_fold_preserves rest _ _ h bn (List.nodup_cons.1 hnd).1,
        lookupA_updateA_self]
    · exact ih _ _ b0 q hb0' hq (fun hm => hnotin (List.mem_cons_of_mem _ hm))
        (List.nodup_cons.1 hnd).2 h bn h1

theorem isNum_exists {v : JVal} (h : v.isNum = true) : ∃ q, v = .num q := by
  cases v with
  | num q => exact ⟨q, rfl⟩
  | str s => simp [JVal.isNum] at h

theorem allNumeric_p50 {d : Dataset} (hnum : AllNumeric d) {o ds t : String}
    {bins : Bins} (hroute : getRoute d o ds t = some bins) : BinsP50Num bins := by
  obtain ⟨dm, tm, m1, m2, m3⟩ := mem_of_getRoute hroute
  intro p hp
  have hall := hnum (o, dm) m1 (ds, tm) m2 (t, bins) m3 p hp
  rw [Bool.and_assoc] at hall
  exact isNum_exists (Bool.and_eq_true_iff.1 (Bool.and_eq_true_iff.1 hall).2).1

/-! ## Master characterization of `gap_fill` -/

theorem gap_fill_combos_exist {d : Dataset} (hwf : WFdataset d) :
    ∀ c ∈ find_missing_bins d, ∃ bins,
      getRoute d c.1 c.2.1 c.2.2.1 = some bins ∧ c.2.2.2 = missing_of bins ∧
        missing_of bins ≠ [] := by
  intro c hc
  obtain ⟨p1, h1, p2, h2, p3, h3, hm, hceq⟩ := find_missing_bins_sound hc
  subst hceq
  exact ⟨p3.2, getRoute_of_mem hwf h1 h2 h3, rfl, hm⟩

/-- On a well-formed dataset, a successful `gap_fill` maps every route
present in the input to exactly the result of `route_fill` (the per-route
strategy cascade fold) on that route's **original** bins, with the global
statistics of the **original** dataset. -/
theorem gap_fill_route {d d' : Dataset} {o ds t : String} {bins : Bins}
    (hwf : WFdataset d) (hfill : gap_fill d = .ok d')
    (hroute : getRoute d o ds t = some bins) :
    ∃ bins', route_fill (collect_bin_statistics d) bins = .ok bins' ∧
      getRoute d' o ds t = some bins' := by
  unfold gap_fill populate_missing_bins at hfill
  have hnd := fmb_paths_nodup hwf
  have hex : ∀ c ∈ find_missing_bins d,
      ∃ bins0, getRoute d c.1 c.2.1 c.2.2.1 = some bins0 :=
    fun c hc => ((gap_fill_combos_exist hwf c hc).imp fun bins0 hb => hb.1)
  obtain ⟨A, B⟩ := populate_loop_sim (collect_bin_statistics d)
    (find_missing_bins d) d d' hnd hex hfill
  by_cases hm : missing_of bins = []
  · have hnotin : ((o : String), ds, t)
        ∉ (find_missing_bins d).map fun c => (c.1, c.2.1, c.2.2.1) := by
      intro hmem
      rw [List.mem_map] at hmem
      obtain ⟨c, hc, hpath⟩ := hmem
      obtain ⟨bins0, hb0, hmiss, hm0⟩ := gap_fill_combos_exist hwf c hc
      rw [Prod.mk.injEq, Prod.mk.injEq] at hpath
      rw [hpath.1, hpath.2.1, hpath.2.2] at hb0
      rw [hroute] at hb0
      obtain rfl := Option.some.inj hb0
      exact hm0 hm
    refine ⟨bins, ?_, by rw [B o ds t hnotin]; exact hroute⟩
    unfold route_fill
    rw [hm]
    exact route_fold_nil _ _ _
  · obtain ⟨dm, tm, hmem1, hmem2, hmem3⟩ := mem_of_getRoute hroute
    have hc : ((o : String), ds, t, missing_of bins) ∈ find_missing_bins d :=
      @find_missing_bins_complete d (o, dm) (ds, tm) (t, bins)
        hmem1 hmem2 hmem3 hm
    obtain ⟨bins', hrf, hres⟩ := A _ hc bins hroute
    exact ⟨bins', hrf, hres⟩

/-- `gap_fill` introduces no new routes. -/
theorem gap_fill_nonroute {d d' : Dataset} {o ds t : String}
    (hwf : WFdataset d) (hfill : gap_fill d = .ok d')
    (hroute : getRoute d o ds t = none) : getRoute d' o ds t = none := by
  unfold gap_fill populate_missing_bins at hfill
  have hnd := fmb_paths_nodup hwf
  have hex : ∀ c ∈ find_missing_bins d,
      ∃ bins0, getRoute d c.1 c.2.1 c.2.2.1 = some bins0 :=
    fun c hc => ((gap_fill_combos_exist hwf c hc).imp fun bins0 hb => hb.1)
  obtain ⟨A, B⟩ := populate_loop_sim (collect_bin_statistics d)
    (find_missing_bins d) d d' hnd hex hfill
  have hnotin : ((o : String), ds, t)
      ∉ (find_missing_bins d).map fun c => (c.1, c.2.1, c.2.2.1) := by
    intro hmem
    rw [List.mem_map] at hmem
    obtain ⟨c, hc, hpath⟩ := hmem
    obtain ⟨bins0, hb0, _, _⟩ := gap_fill_combos_exist hwf c hc
    rw [Prod.mk.injEq, Prod.mk.injEq] at hpath
    rw [hpath.1, hpath.2.1, hpath.2.2] at hb0
    rw [hroute] at hb0
    cases hb0
  rw [B o ds t hnotin]
  exact hroute

/-- On a well-formed, all-numeric dataset, `gap_fill` always succeeds. -/
theorem gap_fill_total {d : Dataset} (hwf : WFdataset d) (hnum : AllNumeric d) :
    ∃ d', gap_fill d = .ok d' := by
  unfold gap_fill populate_missing_bins
  apply populate_loop_total
  · exact fmb_paths_nodup hwf
  · intro c hc
    obtain ⟨bins, hb, hmiss, _⟩ := gap_fill_combos_exist hwf c hc
    refine ⟨bins, hb, ?_⟩
    obtain ⟨bs', hbs', _⟩ := route_fold_ok (collect_stats_wf hnum) (keysA bins)
      c.2.2.2 bins (allNumeric_p50 hnum hb)
    exact ⟨bs', hbs'⟩

/-! ## Claim theorems: Bucket Catalog (C3, C4) -/

/-- The amount ranges `find_amount_bucket` actually implements: closed on
the right (`<=` thresholds), so `[0,50000]`, `(50000,100000]`, ...,
`(1000000,∞)`. -/
def bucket_range_amended (b : String) (a : ℚ) : Prop :=
  if b = "0-50000" then 0 ≤ a ∧ a ≤ 50000
  else if b = "50000-100000" then 50000 < a ∧ a ≤ 100000
  else if b = "100000-300000" then 100000 < a ∧ a ≤ 300000
  else if b = "300000-400000" then 300000 < a ∧ a ≤ 400000
  else if b = "400000-500000" then 400000 < a ∧ a ≤ 500000
  else if b = "500000-700000" then 500000 < a ∧ a ≤ 700000
  else if b = "700000-1000000" then 700000 < a ∧ a ≤ 1000000
  else if b = "1000000+" then 1000000 < a
  else False

theorem bucket_range_amended_unique (a : ℚ) {b b' : String}
    (hb : b ∈ EXPECTED_BINS) (hb' : b' ∈ EXPECTED_BINS)
    (hr : bucket_range_amended b a) (hr' : bucket_range_amended b' a) :
    b = b' := by
  fin_cases hb <;> fin_cases hb' <;> simp_all [bucket_range_amended] <;> linarith

/-- C3 (counterexample): the claim asserts the half-open ranges
`[0,50000), [50000,100000), ...`, i.e. that every amount `a` with
`50000 ≤ a < 100000` maps to `"50000-100000"`; but the code's thresholds
are inclusive (`usd_amount <= 50000`), so the boundary amount 50000 maps
to `"0-50000"`, not `"50000-100000"`. -/
theorem claim3_counterexample :
    find_amount_bucket 50000 = "0-50000" ∧ "0-50000" ≠ "50000-100000" :=
  ⟨rfl, by decide⟩

/-- C3 (amended): the 8 canonical buckets partition the non-negative
amounts as the left-open, right-closed ranges `[0,50000], (50000,100000],
(100000,300000], (300000,400000], (400000,500000], (500000,700000],
(700000,1000000], (1000000,∞)`: for every non-negative USD amount `a`,
`find_amount_bucket a` is the unique canonical bucket whose (amended)
range contains `a`. -/
theorem claim3_amended (a : ℚ) (ha : 0 ≤ a) :
    find_amount_bucket a ∈ EXPECTED_BINS ∧
      bucket_range_amended (find_amount_bucket a) a ∧
      ∀ b ∈ EXPECTED_BINS, bucket_range_amended b a → b = find_amount_bucket a := by
  have hmem : find_amount_bucket a ∈ EXPECTED_BINS := by
    unfold find_amount_bucket
    split_ifs <;> simp [EXPECTED_BINS]
  have hr : bucket_range_amended (find_amount_bucket a) a := by
    unfold find_amount_bucket
    split_ifs with h1 h2 h3 h4 h5 h6 h7 <;> simp [bucket_range_amended] <;>
      try constructor
    all_goals linarith
  exact ⟨hmem, hr, fun b hb hrb => bucket_range_amended_unique a hb hmem hrb hr⟩

/-- C3 (witness for the amended theorem) at `a = 50000`. -/
theorem claim3_amended_witness :
    0 ≤ (50000 : ℚ) ∧
      (find_amount_bucket 50000 ∈ EXPECTED_BINS ∧
        bucket_range_amended (find_amount_bucket 50000) 50000 ∧
        ∀ b ∈ EXPECTED_BINS, bucket_range_amended b 50000 →
          b = find_amount_bucket 50000) :=
  ⟨by norm_num, claim3_amended 50000 (by norm_num)⟩

/-- C4 (counterexample): the claim says every negative amount fails with a
typed `InvalidAmount` error; `find_amount_bucket` has no negativity check
at all — the amount −1 is silently mapped to the first bucket. -/
theorem claim4_counterexample : find_amount_bucket (-1) = "0-50000" := rfl

/-- C4 (amended): `find_amount_bucket` never fails; every negative USD
amount satisfies the first `<= 50000` threshold and is silently mapped to
`"0-50000"` (no `InvalidAmount` error exists in the code). -/
theorem claim4_amended (a : ℚ) (ha : a < 0) :
    find_amount_bucket a = "0-50000" := by
  unfold find_amount_bucket
  rw [if_pos (by linarith : a ≤ 50000)]

/-- C4 (witness for the amended theorem) at `a = -1`. -/
theorem claim4_amended_witness :
    (-1 : ℚ) < 0 ∧ find_amount_bucket (-1) = "0-50000" :=
  ⟨by norm_num, claim4_amended (-1) (by norm_num)⟩

/-! ## Claim theorems: Gap Filler invariants (C7, C2) -/

/-- On a dataset in which every route already holds all 8 canonical
buckets, `find_missing_bins` finds nothing and the Gap Filler returns the
dataset itself. -/
theorem gap_fill_of_complete (d : Dataset)
    (hcomp : ∀ p1 ∈ d, ∀ p2 ∈ p1.2, ∀ p3 ∈ p2.2,
      ∀ bn ∈ EXPECTED_BINS, (lookupA (p3.2 : Bins) bn).isSome = true) :
    gap_fill d = .ok d := by
  have hfmb : find_missing_bins d = [] := by
    unfold find_missing_bins
    rw [List.flatMap_eq_nil_iff]
    intro p1 h1
    rw [List.flatMap_eq_nil_iff]
    intro p2 h2
    rw [List.filterMap_eq_nil_iff]
    intro p3 h3
    have hmiss : missing_of p3.2 = [] := by
      unfold missing_of
      rw [List.filter_eq_nil_iff]
      intro bn hbn
      have := hcomp p1 h1 p2 h2 p3 h3 bn hbn
      rw [Option.isNone_iff_eq_none]
      intro hnone
      rw [hnone] at this
      cases this
    rw [if_pos (by rw [hmiss]; rfl)]
  unfold gap_fill
  rw [hfmb]
  rfl

/-- C7: on a dataset in which every route already holds all 8 canonical
buckets, running the Gap Filler returns the dataset equal to the input —
no bin is added, removed, or has any field altered. -/
theorem claim7_idempotent (d : Dataset)
    (hcomp : ∀ p1 ∈ d, ∀ p2 ∈ p1.2, ∀ p3 ∈ p2.2,
      ∀ bn ∈ EXPECTED_BINS, (lookupA (p3.2 : Bins) bn).isSome = true) :
    gap_fill d = .ok d :=
  gap_fill_of_complete d hcomp

/-- Witness dataset for C7: one route holding all 8 canonical buckets. -/
def witness_complete_dataset : Dataset :=
  [("10", [("1", [("tkn",
    [("0-50000", { p25 := .num 1, p50 := .num 2, p75 := .num 3 }),
     ("50000-100000", { p25 := .num 1, p50 := .num 2, p75 := .num 3 }),
     ("100000-300000", { p25 := .num 1, p50 := .num 2, p75 := .num 3 }),
     ("300000-400000", { p25 := .num 1, p50 := .num 2, p75 := .num 3 }),
     ("400000-500000", { p25 := .num 1, p50 := .num 2, p75 := .num 3 }),
     ("500000-700000", { p25 := .num 1, p50 := .num 2, p75 := .num 3 }),
     ("700000-1000000", { p25 := .num 1, p50 := .num 2, p75 := .num 3 }),
     ("1000000+", { p25 := .num 1, p50 := .num 2, p75 := .num 3 })])])])]

/-- C7 witness: the idempotence theorem applied to a concrete fully
populated dataset. -/
theorem claim7_idempotent_witness :
    gap_fill witness_complete_dataset = .ok witness_complete_dataset :=
  claim7_idempotent witness_complete_dataset (by decide)

/-- With an everywhere-empty statistics table, the `surrounding_data`
collection loop contributes nothing. -/
theorem collect_surrounding_empty {stats : String → BinStatsLists}
    (hstats : ∀ b, stats b = ⟨[], [], []⟩) (ti : Int) (existing : List String) :
    collect_surrounding stats ti existing = .ok [] := by
  unfold collect_surrounding
  suffices h : ∀ acc : List (ℚ × ℚ × ℚ × ℚ),
      existing.foldlM (surrounding_step stats ti) acc = .ok acc from h []
  induction existing with
  | nil => exact fun acc => rfl
  | cons bn rest ih =>
    intro acc
    rw [List.foldlM_cons]
    have hstep : surrounding_step stats ti acc bn = .ok acc := by
      unfold surrounding_step
      rw [hstats bn]
      have hno : ¬(({ p25 := [], p50 := [], p75 := [] } : BinStatsLists).p25 ≠ []) :=
        fun h => h rfl
      rw [if_neg hno]
      rfl
    rw [hstep, except_ok_bind]
    exact ih acc

/-- C2: on every well-formed (unique keys, numeric statistics) dataset —
even one with zero bins — the Gap Filler succeeds, its output holds all 8
canonical buckets for every route, and a missing bucket for which no
strategy 1–4 applies (no route `"0-50000"` bin, empty global statistics)
receives the `default_fallback` bin `p25=10.0, p50=15.0, p75=25.0`,
`sample_size=0`. -/
theorem claim2_terminal_guarantee (d : Dataset)
    (hwf : WFdataset d) (hnum : AllNumeric d) :
    (∃ d', gap_fill d = .ok d' ∧
      ∀ o ds t bins', getRoute d' o ds t = some bins' →
        ∀ bn ∈ EXPECTED_BINS, (lookupA bins' bn).isSome = true) ∧
    (∀ (stats : String → BinStatsLists) (target : String)
        (existing : List String) (rd : Bins),
      (∀ b, stats b = ⟨[], [], []⟩) → lookupA rd "0-50000" = none →
      interpolate_bin_data stats target existing rd = .ok default_fallback_bin) := by
  constructor
  · obtain ⟨d', hfill⟩ := gap_fill_total hwf hnum
    refine ⟨d', hfill, ?_⟩
    intro o ds t bins' hb' bn hbn
    cases hroute : getRoute d o ds t with
    | none =>
      rw [gap_fill_nonroute hwf hfill hroute] at hb'
      cases hb'
    | some bins =>
      obtain ⟨bins'', hrf, hres⟩ := gap_fill_route hwf hfill hroute
      rw [hres] at hb'
      obtain rfl := Option.some.inj hb'
      unfold route_fill at hrf
      apply route_fold_keys _ _ _ hrf
      cases hsome : (lookupA bins bn).isSome with
      | true => exact Or.inr rfl
      | false =>
        left
        unfold missing_of
        rw [List.mem_filter]
        refine ⟨hbn, ?_⟩
        rw [Option.isNone_iff_eq_none, ← Option.not_isSome_iff_eq_none, hsome]
        exact Bool.false_ne_true
  · intro stats target existing rd hstats hrd
    rw [interpolate_eq_no_baseline hrd]
    have h50 : ¬(stats "0-50000").p50 ≠ [] := by
      rw [hstats]
      exact fun h => h rfl
    rw [if_neg h50, collect_surrounding_empty hstats, except_ok_bind]
    have hne : ¬([] : List (ℚ × ℚ × ℚ × ℚ)) ≠ [] := fun h => h rfl
    rw [if_neg hne]
    have ht : ¬(stats target).p25 ≠ [] := by
      rw [hstats]
      exact fun h => h rfl
    rw [if_neg ht]
    rfl

/-- Witness dataset for C2: unique keys, all-numeric, one incomplete
route. -/
def witness_sparse_dataset : Dataset :=
  [("10", [("1", [("tkn",
    [("100000-300000", { p25 := .num 4, p50 := .num 5, p75 := .num 6 })])])])]

/-- C2 witness: the terminal-guarantee theorem applied to a concrete
well-formed sparse dataset. -/
theorem claim2_terminal_guarantee_witness :
    WFdataset witness_sparse_dataset ∧ AllNumeric witness_sparse_dataset ∧
      ((∃ d', gap_fill witness_sparse_dataset = .ok d' ∧
        ∀ o ds t bins', getRoute d' o ds t = some bins' →
          ∀ bn ∈ EXPECTED_BINS, (lookupA bins' bn).isSome = true) ∧
      (∀ (stats : String → BinStatsLists) (target : String)
          (existing : List String) (rd : Bins),
        (∀ b, stats b = ⟨[], [], []⟩) → lookupA rd "0-50000" = none →
        interpolate_bin_data stats target existing rd = .ok default_fallback_bin)) :=
  ⟨by decide, by decide,
    claim2_terminal_guarantee witness_sparse_dataset (by decide) (by decide)⟩

/-! ## Claim theorems: baseline scaling (C5, C6) -/

/-- C5: whenever the route's bin dict holds a `"0-50000"` bin with numeric
median `m`, filling any target bucket commits to `baseline_scaling` with
`p50 = round(m * multiplier(target), 2)`, `p25 = round(p50_unrounded * 0.7, 2)`,
`p75 = round(p50_unrounded * 1.3, 2)`, `sampleSize = 0`; and the multiplier
table is 1.2, 1.5, 1.8, 2.0, 2.5, 3.0, 4.0 for the seven higher buckets in
rank order. -/
theorem claim5_baseline_scaling (stats : String → BinStatsLists)
    (target : String) (existing : List String) (rd : Bins) (b : Bin) (m : ℚ)
    (h0 : lookupA rd "0-50000" = some b) (hm : b.p50 = .num m) :
    interpolate_bin_data stats target existing rd
      = .ok { p25 := .num (round2 (m * base_multiplier target * 0.7)),
              p50 := .num (round2 (m * base_multiplier target)),
              p75 := .num (round2 (m * base_multiplier target * 1.3)),
              sample_size := some (.num 0), generated := some true,
              method := some "baseline_scaling" } ∧
    base_multiplier "50000-100000" = 1.2 ∧ base_multiplier "100000-300000" = 1.5 ∧
    base_multiplier "300000-400000" = 1.8 ∧ base_multiplier "400000-500000" = 2.0 ∧
    base_multiplier "500000-700000" = 2.5 ∧ base_multiplier "700000-1000000" = 3.0 ∧
    base_multiplier "1000000+" = 4.0 :=
  ⟨interpolate_eq_of_baseline h0 hm, rfl, rfl, rfl, rfl, rfl, rfl, rfl⟩

/-- The route dict of the spec's worked example: only a `"0-50000"` bin
with `p50 = 10`. -/
def witness_example_route : Bins :=
  [("0-50000", { p25 := .num 7, p50 := .num 10, p75 := .num 13 })]

/-- C5 witness: the spec's example — `m = 10`, target `"500000-700000"` —
yields `p50 = 25.0`, `p25 = 17.5`, `p75 = 32.5`, `method = "baseline_scaling"`. -/
theorem claim5_baseline_scaling_witness :
    lookupA witness_example_route "0-50000"
        = some { p25 := .num 7, p50 := .num 10, p75 := .num 13 } ∧
    interpolate_bin_data (fun _ => ⟨[], [], []⟩) "500000-700000" []
        witness_example_route
      = .ok { p25 := .num 17.5, p50 := .num 25, p75 := .num 32.5,
              sample_size := some (.num 0), generated := some true,
              method := some "baseline_scaling" } := by
  refine ⟨rfl, ?_⟩
  have h := (claim5_baseline_scaling (fun _ => ⟨[], [], []⟩) "500000-700000" []
    witness_example_route { p25 := .num 7, p50 := .num 10, p75 := .num 13 }
    10 rfl rfl).1
  rw [h]
  have hb : base_multiplier "500000-700000" = 2.5 := by simp [base_multiplier]
  rw [hb]
  have e1 : round2 (10 * (2.5 : ℚ) * 0.7) = 17.5 := by
    simp only [round2, pyRoundHalfEven]
    norm_num
  have e2 : round2 (10 * (2.5 : ℚ)) = 25 := by
    simp only [round2, pyRoundHalfEven]
    norm_num
  have e3 : round2 (10 * (2.5 : ℚ) * 1.3) = 32.5 := by
    simp only [round2, pyRoundHalfEven]
    norm_num
  rw [e1, e2, e3]

/-- C6: strategy precedence at the whole-run level — whenever a route of
the input dataset holds a `"0-50000"` bin (with numeric median) and lacks
`"50000-100000"`, a successful gap fill gives that route a
`"50000-100000"` bin with `method = "baseline_scaling"` (and never any
later strategy). -/
theorem claim6_precedence (d d' : Dataset) (o ds t : String) (bins : Bins)
    (b0 : Bin) (m : ℚ) (hwf : WFdataset d) (hfill : gap_fill d = .ok d')
    (hroute : getRoute d o ds t = some bins)
    (h0 : lookupA bins "0-50000" = some b0) (hm : b0.p50 = .num m)
    (hmiss : lookupA bins "50000-100000" = none) :
    ∃ b, (getRoute d' o ds t).bind (fun bs => lookupA bs "50000-100000")
        = some b ∧ b.method = some "baseline_scaling" ∧
        b.generated = some true := by
  obtain ⟨bins', hrf, hres⟩ := gap_fill_route hwf hfill hroute
  unfold route_fill at hrf
  have h50in : "50000-100000" ∈ missing_of bins := by
    unfold missing_of
    rw [List.mem_filter]
    refine ⟨by decide, ?_⟩
    rw [hmiss]
    rfl
  have h0notin : "0-50000" ∉ missing_of bins := by
    unfold missing_of
    rw [List.mem_filter]
    rintro ⟨-, hcond⟩
    rw [h0] at hcond
    cases hcond
  have hnd : (missing_of bins).Nodup :=
    List.Nodup.filter _ (by decide : EXPECTED_BINS.Nodup)
  have hval := route_fold_baseline_all (missing_of bins) bins bins' b0 m h0 hm
    h0notin hnd hrf "50000-100000" h50in
  refine ⟨baseline_scaled_bin m "50000-100000" "baseline_scaling", ?_, rfl, rfl⟩
  rw [hres]
  exact hval

/-- Witness dataset for C6: one route holding only a `"0-50000"` bin. -/
def witness_baseline_dataset : Dataset :=
  [("1", [("2", [("tk", witness_example_route)])])]

/-- C6 witness: the precedence theorem applied to a concrete dataset
(whose successful fill is produced by `gap_fill_total`). -/
theorem claim6_precedence_witness :
    WFdataset witness_baseline_dataset ∧
    ∃ d', gap_fill witness_baseline_dataset = .ok d' ∧
      ∃ b, (getRoute d' "1" "2" "tk").bind (fun bs => lookupA bs "50000-100000")
          = some b ∧ b.method = some "baseline_scaling" ∧
          b.generated = some true := by
  refine ⟨by decide, ?_⟩
  obtain ⟨d', hfill⟩ :=
    gap_fill_total (d := witness_baseline_dataset) (by decide) (by decide)
  exact ⟨d', hfill, claim6_precedence witness_baseline_dataset d' "1" "2" "tk"
    witness_example_route { p25 := .num 7, p50 := .num 10, p75 := .num 13 }
    10 (by decide) hfill rfl rfl rfl rfl⟩

/-! ## Claim theorems: reading earlier-generated bins (C1) -/

/-- The general fact behind the C1 correction: for a route whose
**original** bucket set lacks `"0-50000"`, that bucket — first in canonical
order among the missing — is generated first, and every later missing
bucket is then filled by `baseline_scaling` **reading the bin generated
earlier in the same run**. -/
theorem gap_fill_no_baseline {d d' : Dataset} {o ds t : String} {bins : Bins}
    (hwf : WFdataset d) (hfill : gap_fill d = .ok d')
    (hroute : getRoute d o ds t = some bins)
    (h0 : lookupA bins "0-50000" = none)
    {bn : String} (hbn : bn ∈ EXPECTED_BINS) (hne : bn ≠ "0-50000")
    (hmiss : lookupA bins bn = none) :
    ∃ b, (getRoute d' o ds t).bind (fun bs => lookupA bs bn) = some b ∧
      b.method = some "baseline_scaling" ∧ b.generated = some true := by
  obtain ⟨bins', hrf, hres⟩ := gap_fill_route hwf hfill hroute
  unfold route_fill at hrf
  have hm : missing_of bins = "0-50000" ::
      (["50000-100000", "100000-300000", "300000-400000", "400000-500000",
        "500000-700000", "700000-1000000", "1000000+"].filter
          fun b => (lookupA bins b).isNone) := by
    show EXPECTED_BINS.filter _ = _
    rw [show EXPECTED_BINS = "0-50000" :: ["50000-100000", "100000-300000",
      "300000-400000", "400000-500000", "500000-700000", "700000-1000000",
      "1000000+"] from rfl, List.filter_cons]
    have hc : ((lookupA bins "0-50000").isNone : Bool) = true := by
      rw [h0]
      rfl
    simp only [hc, if_true]
  rw [hm, route_fold_cons] at hrf
  cases hint : interpolate_bin_data (collect_bin_statistics d) "0-50000"
      (keysA bins) bins with
  | error e =>
    rw [hint] at hrf
    replace hrf : (Except.error e : Except String Bins) = .ok bins' := hrf
    cases hrf
  | ok g0 =>
    rw [hint] at hrf
    replace hrf : route_fold (collect_bin_statistics d) (keysA bins)
        (["50000-100000", "100000-300000", "300000-400000", "400000-500000",
          "500000-700000", "700000-1000000", "1000000+"].filter
            fun b => (lookupA bins b).isNone)
        (updateA bins "0-50000" g0) = .ok bins' := hrf
    obtain ⟨q0, hq0⟩ := interpolate_p50_num hint
    have hb0 : lookupA (updateA bins "0-50000" g0) "0-50000" = some g0 :=
      lookupA_updateA_self _ _ _
    have h0notin : "0-50000" ∉
        (["50000-100000", "100000-300000", "300000-400000", "400000-500000",
          "500000-700000", "700000-1000000", "1000000+"].filter
            fun b => (lookupA bins b).isNone) := by
      intro hmem
      exact absurd (List.mem_of_mem_filter hmem) (by decide)
    have hndrest :
        (["50000-100000", "100000-300000", "300000-400000", "400000-500000",
          "500000-700000", "700000-1000000", "1000000+"].filter
            fun b => (lookupA bins b).isNone).Nodup :=
      List.Nodup.filter _ (by decide)
    have hbnin : bn ∈
        (["50000-100000", "100000-300000", "300000-400000", "400000-500000",
          "500000-700000", "700000-1000000", "1000000+"].filter
            fun b => (lookupA bins b).isNone) := by
      rw [List.mem_filter]
      constructor
      · have hd : bn = "0-50000" ∨
            bn ∈ ["50000-100000", "100000-300000", "300000-400000",
              "400000-500000", "500000-700000", "700000-1000000", "1000000+"] := by
          simpa [EXPECTED_BINS] using hbn
        rcases hd with hd | hd
        · exact absurd hd hne
        · exact hd
      · rw [hmiss]
        rfl
    have hval := route_fold_baseline_all _ _ _ g0 q0 hb0 hq0 h0notin hndrest
      hrf bn hbnin
    exact ⟨baseline_scaled_bin q0 bn "baseline_scaling",
      by rw [hres]; exact hval, rfl, rfl⟩

/-- C1 (amended): strategy reads for a route go against the route's
current, partially-filled bucket set — `route_data` is re-read from the
populated dataset before each bucket is filled — so a bin generated
earlier in the same run is read by later strategies. In particular, for
every route whose original local bucket set lacks `"0-50000"`, that bucket
is filled first and every other originally-missing bucket is then filled
with method `"baseline_scaling"` from the generated `"0-50000"` bin. -/
theorem claim1_amended (d d' : Dataset) (o ds t : String) (bins : Bins)
    (hwf : WFdataset d) (hfill : gap_fill d = .ok d')
    (hroute : getRoute d o ds t = some bins)
    (h0 : lookupA bins "0-50000" = none)
    (bn : String) (hbn : bn ∈ EXPECTED_BINS) (hne : bn ≠ "0-50000")
    (hmiss : lookupA bins bn = none) :
    ∃ b, (getRoute d' o ds t).bind (fun bs => lookupA bs bn) = some b ∧
      b.method = some "baseline_scaling" ∧ b.generated = some true :=
  gap_fill_no_baseline hwf hfill hroute h0 hbn hne hmiss

/-- Witness dataset for C1: one route with an empty local bucket set —
in particular no `"0-50000"` bin. -/
def witness_empty_route_dataset : Dataset := [("1", [("2", [("t", [])])])]

/-- C1 (counterexample): the claim says that for a route whose original
local bucket set lacks `"0-50000"` no missing bucket is ever filled with
method `"baseline_scaling"`; on this dataset (one route, no bins at all),
the run fills `"50000-100000"` with `"baseline_scaling"` — reading the
`"0-50000"` bin generated earlier in the same run. -/
theorem claim1_counterexample :
    lookupA ([] : Bins) "0-50000" = none ∧
    getRoute witness_empty_route_dataset "1" "2" "t" = some [] ∧
    ∃ d' b, gap_fill witness_empty_route_dataset = .ok d' ∧
      (getRoute d' "1" "2" "t").bind (fun bs => lookupA bs "50000-100000")
        = some b ∧ b.method = some "baseline_scaling" := by
  refine ⟨rfl, rfl, ?_⟩
  obtain ⟨d', hfill⟩ :=
    gap_fill_total (d := witness_empty_route_dataset) (by decide) (by decide)
  obtain ⟨b, hb, hmeth, -⟩ := @gap_fill_no_baseline witness_empty_route_dataset
    d' "1" "2" "t" [] (by decide) hfill rfl rfl "50000-100000"
    (by decide) (by decide) rfl
  exact ⟨d', b, hfill, hb, hmeth⟩

/-- C1 witness (for the amended theorem), at the same concrete dataset and
the `"1000000+"` bucket. -/
theorem claim1_amended_witness :
    WFdataset witness_empty_route_dataset ∧
    ∃ d' b, gap_fill witness_empty_route_dataset = .ok d' ∧
      (getRoute d' "1" "2" "t").bind (fun bs => lookupA bs "1000000+")
        = some b ∧ b.method = some "baseline_scaling" ∧
        b.generated = some true := by
  refine ⟨by decide, ?_⟩
  obtain ⟨d', hfill⟩ :=
    gap_fill_total (d := witness_empty_route_dataset) (by decide) (by decide)
  obtain ⟨b, h1, h2, h3⟩ := claim1_amended witness_empty_route_dataset d'
    "1" "2" "t" [] (by decide) hfill rfl rfl "1000000+" (by decide)
    (by decide) rfl
  exact ⟨d', b, hfill, h1, h2, h3⟩

/-! ## Claim theorems: malformed bins (C8) -/

/-- Witness dataset for C8: a complete route one of whose stored
statistics is the non-numeric string `"oops"`. -/
def witness_malformed_dataset : Dataset :=
  [("1", [("2", [("t",
    [("0-50000", { p25 := .str "oops", p50 := .num 2, p75 := .num 3 }),
     ("50000-100000", { p25 := .num 1, p50 := .num 2, p75 := .num 3 }),
     ("100000-300000", { p25 := .num 1, p50 := .num 2, p75 := .num 3 }),
     ("300000-400000", { p25 := .num 1, p50 := .num 2, p75 := .num 3 }),
     ("400000-500000", { p25 := .num 1, p50 := .num 2, p75 := .num 3 }),
     ("500000-700000", { p25 := .num 1, p50 := .num 2, p75 := .num 3 }),
     ("700000-1000000", { p25 := .num 1, p50 := .num 2, p75 := .num 3 }),
     ("1000000+", { p25 := .num 1, p50 := .num 2, p75 := .num 3 })])])])]

/-- C8 (counterexample): the claim says any input containing a bin with a
non-numeric stored statistic makes the Gap Filler fail with `MalformedBin`;
this dataset stores the string `"oops"` as a `p25`, yet the Gap Filler
succeeds (and returns the dataset unchanged), because no strategy ever
consumes the value. -/
theorem claim8_counterexample :
    (getRoute witness_malformed_dataset "1" "2" "t").bind
        (fun bs => lookupA bs "0-50000")
      = some { p25 := .str "oops", p50 := .num 2, p75 := .num 3 } ∧
    gap_fill witness_malformed_dataset = .ok witness_malformed_dataset :=
  ⟨rfl, gap_fill_of_complete witness_malformed_dataset (by decide)⟩

/-- C8 (amended): the Gap Filler performs no malformed-bin validation. A
non-numeric stored statistic causes a failure only when a strategy consumes
it — e.g. a non-numeric `"0-50000"` `p50` is consumed by baseline scaling —
and that failure is the untyped Python `TypeError`, a constant that names
neither the offending route nor the bucket; a dataset whose routes are all
complete is processed without any error (see the counterexample). -/
theorem claim8_amended (stats : String → BinStatsLists) (target : String)
    (existing : List String) (rd : Bins) (b : Bin) (s0 : String)
    (h0 : lookupA rd "0-50000" = some b) (hs : b.p50 = .str s0) :
    interpolate_bin_data stats target existing rd = .error pyTypeError ∧
    pyTypeError = "TypeError: unsupported operand type(s)" :=
  ⟨interpolate_eq_of_baseline_str h0 hs, rfl⟩

/-- The malformed route used by the C8 amended witness. -/
def witness_malformed_route : Bins :=
  [("0-50000", { p25 := .num 1, p50 := .str "bad", p75 := .num 3 })]

/-- C8 witness (for the amended theorem). -/
theorem claim8_amended_witness :
    lookupA witness_malformed_route "0-50000"
        = some { p25 := .num 1, p50 := .str "bad", p75 := .num 3 } ∧
    (interpolate_bin_data (fun _ => ⟨[], [], []⟩) "50000-100000" []
        witness_malformed_route = .error pyTypeError ∧
      pyTypeError = "TypeError: unsupported operand type(s)") :=
  ⟨rfl, claim8_amended (fun _ => ⟨[], [], []⟩) "50000-100000" []
    witness_malformed_route { p25 := .num 1, p50 := .str "bad", p75 := .num 3 }
    "bad" rfl rfl⟩

/-! ## Claim theorems: Lookup Service (C9, C10) -/

theorem find?_append_match {α : Type} (l1 l2 : List α) (p : α → Bool) :
    (l1 ++ l2).find? p
      = match l1.find? p with
        | some x => some x
        | none => l2.find? p := by
  induction l1 with
  | nil => rfl
  | cons a t ih =>
    rw [List.cons_append]
    cases hpa : p a with
    | true =>
      rw [List.find?_cons_of_pos _ hpa, List.find?_cons_of_pos _ hpa]
    | false =>
      rw [List.find?_cons_of_neg _ (by rw [hpa]; exact Bool.false_ne_true),
        List.find?_cons_of_neg _ (by rw [hpa]; exact Bool.false_ne_true), ih]

theorem option_orElse_map {α β : Type} (f : α → β) (x y : Option α) :
    ((x.map f) <|> (y.map f))
      = (match x with
         | some a => some a
         | none => y).map f := by
  cases x <;> rfl

theorem search_chain_assets_eq (ci : ChainInfo) (name : String) :
    search_chain_assets ci name
      = ((ci.assets.getD []).find?
          fun p => p.1.toUpper = name.toUpper).map (·.2.tickerHash) := by
  obtain ⟨assets⟩ := ci
  cases assets with
  | some a => rfl
  | none => rfl

theorem hub_search_eq (cd : ChainData) (name : String) :
    hub_search cd name
      = ((cd.hub_assets.getD []).find?
          fun p => p.1.toUpper = name.toUpper).map (·.2.tickerHash) := by
  obtain ⟨hub, chains⟩ := cd
  cases hub with
  | some a => rfl
  | none => rfl

theorem hinted_search_eq (cd : ChainData) (name : String)
    (origin : Option String) :
    hinted_search cd name origin
      = ((match origin with
          | some oc =>
              if oc = "" then []
              else match lookupA cd.chains oc with
                   | some ci => ci.assets.getD []
                   | none => []
          | none => ([] : List (String × AssetInfo))).find?
            fun p : String × AssetInfo => p.1.toUpper = name.toUpper).map
          (fun x : String × AssetInfo => x.2.tickerHash) := by
  cases origin with
  | none => rfl
  | some oc =>
    show (if oc = "" then none
        else match lookupA cd.chains oc with
             | some ci => search_assets (ci.assets.getD []) name
             | none => none)
      = ((if oc = "" then ([] : List (String × AssetInfo))
          else match lookupA cd.chains oc with
               | some ci => ci.assets.getD []
               | none => []).find?
            fun p => p.1.toUpper = name.toUpper).map (·.2.tickerHash)
    by_cases he : oc = ""
    · rw [if_pos he, if_pos he]
      rfl
    · rw [if_neg he, if_neg he]
      cases lookupA cd.chains oc with
      | some ci => rfl
      | none => rfl

theorem all_chains_search_eq (cd : ChainData) (name : String) :
    all_chains_search cd name
      = ((cd.chains.flatMap fun p => p.2.assets.getD []).find?
          fun p => p.1.toUpper = name.toUpper).map (·.2.tickerHash) := by
  unfold all_chains_search
  induction cd.chains with
  | nil => rfl
  | cons c t ih =>
    rw [List.findSome?_cons, List.flatMap_cons, find?_append_match,
      search_chain_assets_eq]
    cases hfind : (c.2.assets.getD []).find?
        fun p => p.1.toUpper = name.toUpper with
    | none => exact ih
    | some x => rfl

/-- C9: asset resolution equals a single search of the concatenated
catalogs, in fixed order — hub assets, then the hinted origin chain's
assets, then every chain's assets — returning the `tickerHash` of the
first case-insensitive symbol match and `none` (AssetNotFound) when no
catalog entry matches. -/
theorem claim9_asset_resolution_order (cd : ChainData) (asset_name : String)
    (origin_chain : Option String) :
    get_ticker_hash_from_asset_name (some cd) asset_name origin_chain
      = resolve_asset_by_concatenation cd asset_name origin_chain := by
  show (hub_search cd asset_name <|>
      hinted_search cd asset_name origin_chain <|>
      all_chains_search cd asset_name)
    = resolve_asset_by_concatenation cd asset_name origin_chain
  unfold resolve_asset_by_concatenation
  rw [find?_append_match, find?_append_match, hub_search_eq,
    hinted_search_eq, all_chains_search_eq, option_orElse_map,
    option_orElse_map]

/-- C10: calling `lookup_settlement_times` with no amount range, on a
route that exists and stores at least one bucket, succeeds and returns the
statistics of the first stored amount range in the route's iteration
order, reporting that range's name in the result. -/
theorem claim10_first_range_default (data : Dataset) (o ds a r : String)
    (b : Bin) (rest : Bins) (h : getRoute data o ds a = some ((r, b) :: rest)) :
    lookup_settlement_times data o ds a none
      = some { origin_chain := o, destination_chain := ds, asset := a,
               amount_range := r, p25 := b.p25, p50 := b.p50, p75 := b.p75,
               sample_size := b.sample_size,
               generated := b.generated.getD false,
               method := b.method.getD "N/A" } := by
  obtain ⟨dm, tm, h1, h2, h3⟩ := getRoute_eq_some_iff.1 h
  simp only [lookup_settlement_times, h1, h2, h3]
  rfl

/-- The first stored bin of the C10 witness route. -/
def witness_first_bin : Bin :=
  { p25 := .num 4, p50 := .num 5, p75 := .num 6,
    sample_size := some (.num 12), generated := some false }

/-- The dataset used by the C10 witness: two stored buckets, the first one
not the lowest-amount bucket (iteration order, not rank order, decides). -/
def witness_lookup_dataset : Dataset :=
  [("10", [("1", [("tkn",
    [("100000-300000", witness_first_bin),
     ("0-50000", { p25 := .num 1, p50 := .num 2, p75 := .num 3 })])])])]

/-- C10 witness at a concrete dataset. -/
theorem claim10_first_range_default_witness :
    getRoute witness_lookup_dataset "10" "1" "tkn"
      = some (("100000-300000", witness_first_bin) ::
          [("0-50000", { p25 := .num 1, p50 := .num 2, p75 := .num 3 })]) ∧
    lookup_settlement_times witness_lookup_dataset "10" "1" "tkn" none
      = some { origin_chain := "10", destination_chain := "1", asset := "tkn",
               amount_range := "100000-300000",
               p25 := witness_first_bin.p25, p50 := witness_first_bin.p50,
               p75 := witness_first_bin.p75,
               sample_size := witness_first_bin.sample_size,
               generated := witness_first_bin.generated.getD false,
               method := witness_first_bin.method.getD "N/A" } :=
  ⟨rfl, claim10_first_range_default witness_lookup_dataset "10" "1" "tkn"
    "100000-300000" witness_first_bin
    [("0-50000", { p25 := .num 1, p50 := .num 2, p75 := .num 3 })] rfl⟩

end SettlementEta
